import Mathlib

/-!
Verification of the ResearchCamera360 repository (two Python scripts:
`get_json_360.py`, the metadata harvester, and `crawl_360.py`, the asset
downloader) against its natural-language specification.

The scripts are embedded shallowly: JSON values become the inductive
`JValue`; the network becomes an oracle `Nat → String → ReqResult` mapping
the index of a request and its URL to a transport exception or an HTTP
response; observable side effects (HTTP requests issued, sleeps) are
collected in an event trace.  Dynamically-typed Python operations that can
raise (`in`, subscription, `.items()`, tuple unpacking) are embedded as
`Except Unit` computations, an `error` meaning the Python code raises and
control transfers to the enclosing handler.
-/

namespace ResearchCamera360

/-- A parsed JSON value, as produced by `response.json()` / `json.loads`. -/
inductive JValue : Type where
  | null : JValue
  | bool (b : Bool) : JValue
  | num (n : Int) : JValue
  | str (s : String) : JValue
  | list (xs : List JValue) : JValue
  | dict (kvs : List (String × JValue)) : JValue

/-- Key lookup in a JSON object (Python `dict` lookup). -/
def jFind (kvs : List (String × JValue)) (k : String) : Option JValue :=
  match kvs with
  | [] => none
  | (k2, v) :: rest => if k2 = k then some v else jFind rest k

/-- Field access on a JSON value when it is an object. -/
def jGet (v : JValue) (k : String) : Option JValue :=
  match v with
  | JValue.dict kvs => jFind kvs k
  | _ => none

/-- Whether the first character list starts the second. -/
def listStartsWith : List Char → List Char → Bool
  | [], _ => true
  | _ :: _, [] => false
  | a :: as, b :: bs => a == b && listStartsWith as bs

/-- Whether the first character list occurs contiguously in the second. -/
def listHasSub (needle : List Char) : List Char → Bool
  | [] => needle.isEmpty
  | c :: rest => listStartsWith needle (c :: rest) || listHasSub needle rest

/-- Python `k in v` for a string key `k`: membership for dicts, element
membership for lists, substring test for strings, `TypeError` otherwise. -/
def pyIn (k : String) (v : JValue) : Except Unit Bool :=
  match v with
  | JValue.dict kvs => Except.ok (kvs.any (fun kv => kv.1 == k))
  | JValue.list xs =>
      Except.ok (xs.any (fun x => match x with | JValue.str s => s == k | _ => false))
  | JValue.str s => Except.ok (listHasSub k.toList s.toList)
  | _ => Except.error ()

/-- Python `v[k]` for a string key: dict lookup (`KeyError` when absent),
`TypeError` on every non-dict value. -/
def pySubscript (v : JValue) (k : String) : Except Unit JValue :=
  match v with
  | JValue.dict kvs =>
      match jFind kvs k with
      | some r => Except.ok r
      | none => Except.error ()
  | _ => Except.error ()

/-- Python truthiness of a JSON value. -/
def pyTruthy : JValue → Bool
  | JValue.null => false
  | JValue.bool b => b
  | JValue.num n => n != 0
  | JValue.str s => !s.isEmpty
  | JValue.list xs => !xs.isEmpty
  | JValue.dict kvs => !kvs.isEmpty

/-- Python `data.get(k, default)` on a dict. -/
def pyGetDefault (kvs : List (String × JValue)) (k : String) (d : JValue) : JValue :=
  match jFind kvs k with
  | some v => v
  | none => d

/-- Python `asset_data.get('type') == 0` as used by the listing filter:
`0 == 0` and `False == 0` hold in Python, nothing else among JSON values. -/
def pyEqZero : JValue → Bool
  | JValue.num n => n == 0
  | JValue.bool b => !b
  | _ => false

/-- `str.title()` restricted to the behaviour Python exhibits on the
alphanumeric-and-separator asset identifiers: the first letter of each
alphabetic run is upper-cased, the rest lower-cased. -/
def titleAux : Bool → List Char → List Char
  | _, [] => []
  | prevAlpha, c :: cs =>
      if c.isAlpha then (if prevAlpha then c.toLower else c.toUpper) :: titleAux true cs
      else c :: titleAux false cs

/-- Python `s.title()`. -/
def pyTitle (s : String) : String := String.mk (titleAux false s.toList)

/-! ### The network model -/

/-- Result of one `requests.get` call: a transport-level exception
(`requests.exceptions.RequestException` raised by the call itself), or a
response with a status code and the value `.json()` would produce
(`none` when the body is not parseable JSON, so `.json()` raises). -/
inductive ReqResult : Type where
  | exn : ReqResult
  | resp (status : Nat) (body : Option JValue) : ReqResult

/-- An observable event of a harvester run. -/
inductive Event : Type where
  | getReq (url : String) : Event
  | sleep (secs : Nat) : Event

/-- Running state threaded through the embedded script: how many HTTP
requests have been issued so far, and the trace of events in order. -/
structure FetchState : Type where
  counter : Nat
  events : List Event

/-- The initial state of a run. -/
def startState : FetchState := { counter := 0, events := [] }

/-- `requests.get(url, ...)`: consult the network oracle at the current
request index and record the request. -/
def requestGet (net : Nat → String → ReqResult) (s : FetchState) (url : String) :
    ReqResult × FetchState :=
  (net s.counter url,
   { counter := s.counter + 1, events := s.events ++ [Event.getReq url] })

/-! ### URLs (constants of `get_json_360.py`) -/

def API_URL : String := "https://api.polyhaven.com"

def assetsUrl : String := API_URL ++ "/assets?t=hdris"

def infoUrl (assetId : String) : String := API_URL ++ "/info/" ++ assetId

def filesUrl (assetId : String) : String := API_URL ++ "/files/" ++ assetId

def thumbUrl (assetId : String) : String :=
  "https://cdn.polyhaven.com/asset_img/thumbs/" ++ assetId ++ ".png?width=256&height=256"

/-! ### `get_asset_list` (`get_json_360.py`, lines 15–45) -/

/-- Lines 27–29, body of the filter: an entry is kept exactly when its
value is a dict whose `type` field compares equal to `0`, and it is mapped
to the constant tag `"hdri"`. -/
def hdriPick (kv : String × JValue) : Option (String × JValue) :=
  match kv.2 with
  | JValue.dict vd =>
      if pyEqZero (pyGetDefault vd "type" JValue.null) then
        some (kv.1, JValue.str "hdri")
      else none
  | _ => none

/-- `get_asset_list()`: requests the full asset listing and filters it
with `hdriPick`, producing a Python dict from identifier to the constant
tag.  Any exception on the way — transport failure, an HTTP error status
raised by `raise_for_status`, a JSON parse failure, or a non-dict listing
— is caught and the Python list `[]` is returned.  The result is a
`JValue` because the two branches return values of different Python types
(a dict on success, a list on failure). -/
def get_asset_list (net : Nat → String → ReqResult) (s : FetchState) :
    JValue × FetchState :=
  let r := requestGet net s assetsUrl
  match r.1 with
  | ReqResult.exn => (JValue.list [], r.2)
  | ReqResult.resp status body =>
      if 400 ≤ status ∧ status < 600 then (JValue.list [], r.2)
      else
        match body with
        | none => (JValue.list [], r.2)
        | some (JValue.dict kvs) => (JValue.dict (kvs.filterMap hdriPick), r.2)
        | some _ => (JValue.list [], r.2)

/-! ### `get_asset_info` (`get_json_360.py`, lines 47–115) -/

/-- Lines 76–82 of the body, innermost loop: fold of the per-format file
entries, keeping the resolution pair of strictly greater area. -/
def scanFormats : List (String × JValue) → Int × Int → Except Unit (Int × Int)
  | [], cur => Except.ok cur
  | (_, fileInfo) :: rest, cur =>
      match pyIn "resolution" fileInfo with
      | Except.error _ => Except.error ()
      | Except.ok false => scanFormats rest cur
      | Except.ok true =>
          match pySubscript fileInfo "resolution" with
          | Except.error _ => Except.error ()
          | Except.ok rv =>
              if pyTruthy rv then
                match rv with
                | JValue.list [JValue.num w, JValue.num h] =>
                    if w * h > cur.1 * cur.2 then scanFormats rest (w, h)
                    else scanFormats rest cur
                | _ => Except.error ()
              else scanFormats rest cur

/-- Lines 77–82: iterate the resolution entries; each value must support
`.items()` (be a dict), otherwise Python raises. -/
def scanRes : List (String × JValue) → Int × Int → Except Unit (Int × Int)
  | [], cur => Except.ok cur
  | (_, formats) :: rest, cur =>
      match formats with
      | JValue.dict fs =>
          match scanFormats fs cur with
          | Except.error _ => Except.error ()
          | Except.ok cur2 => scanRes rest cur2
      | _ => Except.error ()

/-- Lines 75–82: starting from `max_res = [0, 0]`, scan
`files_data['hdri']` when present. -/
def scanMaxRes (filesData : JValue) : Except Unit (Int × Int) :=
  match pyIn "hdri" filesData with
  | Except.error _ => Except.error ()
  | Except.ok false => Except.ok (0, 0)
  | Except.ok true =>
      match pySubscript filesData "hdri" with
      | Except.error _ => Except.error ()
      | Except.ok hv =>
          match hv with
          | JValue.dict entries => scanRes entries (0, 0)
          | _ => Except.error ()

/-- Lines 85–88: collect `data['authors']` when present; the value must
support `.items()` (be a dict), otherwise Python raises. -/
def buildAuthors (data : List (String × JValue)) : Except Unit (List (String × JValue)) :=
  match jFind data "authors" with
  | none => Except.ok []
  | some v =>
      match v with
      | JValue.dict kvs => Except.ok kvs
      | _ => Except.error ()

/-- Lines 91–103: assemble the asset-information record, substituting the
documented default for every field the upstream `data` omits. -/
def assembleRecord (assetId : String) (data : List (String × JValue))
    (authors : List (String × JValue)) (maxRes : Int × Int) : JValue :=
  JValue.dict [
    ("name", pyGetDefault data "name" (JValue.str (pyTitle (assetId.replace "_" " ")))),
    ("type", JValue.num 0),
    ("date_published", pyGetDefault data "date_published" (JValue.num 0)),
    ("download_count", pyGetDefault data "download_count" (JValue.num 0)),
    ("files_hash", pyGetDefault data "files_hash" (JValue.str "")),
    ("authors",
      if authors.isEmpty then JValue.dict [("Unknown", JValue.str "All")]
      else JValue.dict authors),
    ("categories", pyGetDefault data "categories" (JValue.list [])),
    ("tags", pyGetDefault data "tags" (JValue.list [])),
    ("max_resolution",
      if maxRes = (0, 0) then JValue.list [JValue.num 8192, JValue.num 4096]
      else JValue.list [JValue.num maxRes.1, JValue.num maxRes.2]),
    ("dimensions", JValue.list [JValue.num 30000, JValue.num 30000]),
    ("thumbnail_url", pyGetDefault data "thumbnail_url" (JValue.str (thumbUrl assetId)))
  ]

/-- Outcome of one iteration of the retry loop: the function returns
(`done`), or a `requests.exceptions.RequestException` was caught and the
loop may retry (`transient`). -/
inductive AttemptOutcome : Type where
  | done (r : Option JValue) : AttemptOutcome
  | transient : AttemptOutcome

/-- Lines 66–105: after the 404 handling, `raise_for_status` (an HTTP
error status raises `HTTPError`, a `RequestException`, caught by the retry
handler), the files request, the resolution scan, the authors loop and the
record assembly.  A raise from the dynamic operations lands in the generic
`except Exception` handler, which returns `None`. -/
def processResponse (net : Nat → String → ReqResult) (assetId : String)
    (status : Nat) (body : Option JValue) (s : FetchState) :
    AttemptOutcome × String × FetchState :=
  if 400 ≤ status ∧ status < 600 then (AttemptOutcome.transient, assetId, s)
  else
    match body with
    | none => (AttemptOutcome.done none, assetId, s)
    | some data0 =>
      match data0 with
      | JValue.dict data =>
        let fr := requestGet net s (filesUrl assetId)
        (match fr.1 with
         | ReqResult.exn => (AttemptOutcome.transient, assetId, fr.2)
         | ReqResult.resp fstatus fbody =>
             let filesData : Except Unit JValue :=
               if fstatus = 200 then
                 match fbody with
                 | none => Except.error ()
                 | some v => Except.ok v
               else Except.ok (JValue.dict [])
             match filesData with
             | Except.error _ => (AttemptOutcome.done none, assetId, fr.2)
             | Except.ok fd =>
                 match scanMaxRes fd with
                 | Except.error _ => (AttemptOutcome.done none, assetId, fr.2)
                 | Except.ok maxRes =>
                     match buildAuthors data with
                     | Except.error _ => (AttemptOutcome.done none, assetId, fr.2)
                     | Except.ok authors =>
                         (AttemptOutcome.done
                           (some (assembleRecord assetId data authors maxRes)),
                          assetId, fr.2))
      | _ => (AttemptOutcome.done none, assetId, s)

/-- Lines 50–64 and onward: one iteration of the retry loop.  A 404 on
`/info/{id}` rebinds `asset_id` to `id ++ "_4k"` (the rebinding persists
into later retries) and issues exactly one fallback request; a second 404
returns `None`. -/
def attemptFetch (net : Nat → String → ReqResult) (assetId : String) (s : FetchState) :
    AttemptOutcome × String × FetchState :=
  let r1 := requestGet net s (infoUrl assetId)
  match r1.1 with
  | ReqResult.exn => (AttemptOutcome.transient, assetId, r1.2)
  | ReqResult.resp st1 body1 =>
      if st1 = 404 then
        let aid2 := assetId ++ "_4k"
        let r2 := requestGet net r1.2 (infoUrl aid2)
        match r2.1 with
        | ReqResult.exn => (AttemptOutcome.transient, aid2, r2.2)
        | ReqResult.resp st2 body2 =>
            if st2 = 404 then (AttemptOutcome.done none, aid2, r2.2)
            else processResponse net aid2 st2 body2 r2.2
      else processResponse net assetId st1 body1 r1.2

/-- Lines 49 and 107–112: `for attempt in range(max_retries)` with the
`RequestException` handler, driven by the remaining number of attempts.
On the last attempt the handler returns `None`; otherwise it sleeps one
second and retries (with the possibly rewritten identifier). -/
def fetchLoop (net : Nat → String → ReqResult) :
    Nat → String → FetchState → Option JValue × FetchState
  | 0, _, s => (none, s)
  | Nat.succ rem, assetId, s =>
      match attemptFetch net assetId s with
      | (AttemptOutcome.done r, _, s2) => (r, s2)
      | (AttemptOutcome.transient, aid2, s2) =>
          if rem = 0 then (none, s2)
          else fetchLoop net rem aid2
                 { s2 with events := s2.events ++ [Event.sleep 1] }

/-- `get_asset_info(asset_id, max_retries)` started from an arbitrary
running state (as the main loop calls it). -/
def get_asset_info_from (net : Nat → String → ReqResult) (assetId : String)
    (maxRetries : Nat) (s : FetchState) : Option JValue × FetchState :=
  fetchLoop net maxRetries assetId s

/-- `get_asset_info(asset_id, max_retries=3)` from a fresh state. -/
def get_asset_info (net : Nat → String → ReqResult) (assetId : String)
    (maxRetries : Nat) : Option JValue × FetchState :=
  get_asset_info_from net assetId maxRetries startState

/-! ### `main` (`get_json_360.py`, lines 128–175) -/

/-- Lines 143–155: the processing loop over the (capped) listing entries.
A successful fetch is stored under the listing identifier `asset_id`; a
`None` result is skipped; either way a one-second pause follows and the
loop continues with the next identifier. -/
def mainLoop (net : Nat → String → ReqResult) :
    List (String × JValue) → FetchState → List (String × JValue) × FetchState
  | [], s => ([], s)
  | (assetId, _) :: rest, s =>
      let r := get_asset_info_from net assetId 3 s
      let s2 := { r.2 with events := r.2.events ++ [Event.sleep 1] }
      match r.1 with
      | some info =>
          let acc := mainLoop net rest s2
          ((assetId, info) :: acc.1, acc.2)
      | none => mainLoop net rest s2

/-- Lines 128–148: `main()` up to the collection it assembles — the
listing, the emptiness guard, the `[:843]` cap and the processing loop. -/
def mainCollection (net : Nat → String → ReqResult) : List (String × JValue) :=
  match get_asset_list net startState with
  | (JValue.dict kvs, s) =>
      if kvs.isEmpty then [] else (mainLoop net (kvs.take 843) s).1
  | (_, _) => []

/-! ### `download_file` (`crawl_360.py`, lines 37–54) -/

/-- Result of the one streaming `requests.get` a `download_file` call may
issue: the call itself raises a transport exception, or an HTTP response
arrives with a status code and a stream of body chunks; `interrupted`
records that a transport exception is raised while iterating the body
after the listed chunks have been delivered. -/
inductive DlOutcome : Type where
  | connExn : DlOutcome
  | resp (status : Nat) (chunks : List (List Nat)) (interrupted : Bool) : DlOutcome

/-- Split a character list at every occurrence of `sep` (Python
`str.split` with a one-character separator, as `"/"` is here). -/
def splitOnCharAux (sep : Char) : List Char → List Char → List String
  | [], acc => [String.mk acc.reverse]
  | c :: cs, acc =>
      if c = sep then String.mk acc.reverse :: splitOnCharAux sep cs []
      else splitOnCharAux sep cs (c :: acc)

/-- Python `s.split(sep)` for a one-character separator. -/
def splitOnChar (sep : Char) (s : String) : List String :=
  splitOnCharAux sep s.toList []

/-- Python `url.split("/")[-1]`. -/
def urlBasename (url : String) : String := (splitOnChar '/' url).getLastD url

/-- `download_file(url, save_dir)` acting on a filesystem modelled as a
mapping from path to byte content.  Returns the new filesystem and whether
a network request was issued.  An existing file at the target path
short-circuits before any network activity.  On HTTP 200 the file is
created and every delivered chunk is written; a transport exception while
streaming (`interrupted`) is caught and swallowed, leaving the bytes
already written on disk.  A non-200 status or an exception on connection
leaves the filesystem unchanged. -/
def download_file (outcome : DlOutcome) (url saveDir : String)
    (fs : List (String × List Nat)) : List (String × List Nat) × Bool :=
  let filename := urlBasename url
  let path := saveDir ++ "/" ++ filename
  if fs.any (fun p => p.1 == path) then (fs, false)
  else
    match outcome with
    | DlOutcome.connExn => (fs, true)
    | DlOutcome.resp status chunks _ =>
        if status = 200 then ((path, chunks.flatten) :: fs, true)
        else (fs, true)

/-! ### `save_to_json` (`get_json_360.py`, lines 117–126)

`json.dump(data, f, indent=2, ensure_ascii=False)` is embedded as a
pretty-printer producing the exact document CPython writes for these
values: two-space indentation, `", "`-free member separators (`,` followed
by a newline and indentation), `": "` after keys, and string escaping
limited to the two JSON metacharacters and control characters — non-ASCII
text is written literally. -/

/-- Lower-case hexadecimal digit. -/
def hexDigitChar (n : Nat) : Char :=
  if n < 10 then Char.ofNat (48 + n) else Char.ofNat (87 + n)

/-- Decimal digit character. -/
def digitChar (n : Nat) : Char := Char.ofNat (48 + n)

/-- The escape `json.dump` applies to one character when
`ensure_ascii=False`: `"` and `\` get a backslash escape, the common
control characters get their short escapes, other control characters get a
`\u00xx` escape, and everything else (non-ASCII included) is literal. -/
def escChar (c : Char) : List Char :=
  if c = '"' then ['\\', '"']
  else if c = '\\' then ['\\', '\\']
  else if c = '\n' then ['\\', 'n']
  else if c = '\r' then ['\\', 'r']
  else if c = '\t' then ['\\', 't']
  else if c.toNat = 8 then ['\\', 'b']
  else if c.toNat = 12 then ['\\', 'f']
  else if c.toNat < 32 then
    ['\\', 'u', '0', '0', hexDigitChar (c.toNat / 16), hexDigitChar (c.toNat % 16)]
  else [c]

/-- A JSON string literal for `s`. -/
def ppStr (s : String) : List Char :=
  '"' :: (s.toList.map escChar).flatten ++ ['"']

/-- Decimal digits of a natural number, with explicit fuel so that the
definition is structurally recursive (the fuel `n` itself always
suffices since `n / 10 < n`). -/
def natDigitsAux : Nat → Nat → List Char
  | 0, n => [digitChar n]
  | Nat.succ fuel, n =>
      if n < 10 then [digitChar n]
      else natDigitsAux fuel (n / 10) ++ [digitChar (n % 10)]

/-- Decimal digits of a natural number. -/
def natDigits (n : Nat) : List Char := natDigitsAux n n

/-- Decimal rendering of an integer. -/
def ppInt (n : Int) : List Char :=
  if n < 0 then '-' :: natDigits n.natAbs else natDigits n.natAbs

/-- The indentation written at nesting depth `n` (two spaces per level). -/
def indentChars (n : Nat) : List Char := List.replicate (2 * n) ' '

mutual

/-- The document `json.dump(v, f, indent=2, ensure_ascii=False)` writes
for `v` at nesting depth `ind`. -/
def ppVal : JValue → Nat → List Char
  | JValue.null, _ => ['n', 'u', 'l', 'l']
  | JValue.bool true, _ => ['t', 'r', 'u', 'e']
  | JValue.bool false, _ => ['f', 'a', 'l', 's', 'e']
  | JValue.num n, _ => ppInt n
  | JValue.str s, _ => ppStr s
  | JValue.list [], _ => ['[', ']']
  | JValue.list (x :: xs), ind =>
      '[' :: '\n' :: indentChars (ind + 1) ++ ppItems (x :: xs) (ind + 1)
        ++ '\n' :: indentChars ind ++ [']']
  | JValue.dict [], _ => ['\x7b', '\x7d']
  | JValue.dict (kv :: kvs), ind =>
      '\x7b' :: '\n' :: indentChars (ind + 1) ++ ppMems (kv :: kvs) (ind + 1)
        ++ '\n' :: indentChars ind ++ ['\x7d']

/-- Array elements, separated by `,` + newline + indentation. -/
def ppItems : List JValue → Nat → List Char
  | [], _ => []
  | [x], ind => ppVal x ind
  | x :: y :: rest, ind =>
      ppVal x ind ++ ',' :: '\n' :: indentChars ind ++ ppItems (y :: rest) ind

/-- Object members, `"key": value`, separated like array elements. -/
def ppMems : List (String × JValue) → Nat → List Char
  | [], _ => []
  | [(k, v)], ind => ppStr k ++ ':' :: ' ' :: ppVal v ind
  | (k, v) :: m :: rest, ind =>
      ppStr k ++ ':' :: ' ' :: ppVal v ind
        ++ ',' :: '\n' :: indentChars ind ++ ppMems (m :: rest) ind

end

/-- The serialized document as a string. -/
def dumps (v : JValue) : String := String.mk (ppVal v 0)

/-- Whether the write to the output file succeeds or raises `IOError`. -/
inductive WriteOutcome : Type where
  | ok : WriteOutcome
  | ioError : WriteOutcome

/-- `save_to_json(data, filename)`: on a successful write the serialized
document is on disk and `True` is returned; an exception while opening or
writing is caught and `False` is returned — never raised. -/
def save_to_json (w : WriteOutcome) (data : JValue) (filename : String) :
    Bool × Option (String × String) :=
  match w with
  | WriteOutcome.ok => (true, some (filename, dumps data))
  | WriteOutcome.ioError => (false, none)

/-! ### A JSON parser (reading the document back)

An independent recursive-descent JSON parser over the grammar the
harvester's documents use (objects, arrays, strings, integers, literals),
used to state that persisted documents parse back to the collection. -/

/-- JSON whitespace. -/
def isWsChar (c : Char) : Bool :=
  c.toNat = 32 || c.toNat = 10 || c.toNat = 9 || c.toNat = 13

/-- Skip leading whitespace. -/
def skipWs : List Char → List Char
  | [] => []
  | c :: cs => if isWsChar c then skipWs cs else c :: cs

/-- Value of a decimal digit character. -/
def digVal (c : Char) : Option Nat :=
  if 48 ≤ c.toNat ∧ c.toNat ≤ 57 then some (c.toNat - 48) else none

/-- Value of a hexadecimal digit character. -/
def hexVal (c : Char) : Option Nat :=
  if 48 ≤ c.toNat ∧ c.toNat ≤ 57 then some (c.toNat - 48)
  else if 97 ≤ c.toNat ∧ c.toNat ≤ 102 then some (c.toNat - 87)
  else if 65 ≤ c.toNat ∧ c.toNat ≤ 70 then some (c.toNat - 55)
  else none

/-- Decode a short escape character. -/
def escDecode (e : Char) : Option Char :=
  if e = '"' then some '"'
  else if e = '\\' then some '\\'
  else if e = '/' then some '/'
  else if e = 'n' then some '\n'
  else if e = 't' then some '\t'
  else if e = 'r' then some '\r'
  else if e = 'b' then some (Char.ofNat 8)
  else if e = 'f' then some (Char.ofNat 12)
  else none

/-- Parse the body of a string literal after the opening quote, returning
the decoded characters and the input after the closing quote. -/
def parseStrBody : List Char → Option (List Char × List Char)
  | [] => none
  | c :: cs =>
      if c = '"' then some ([], cs)
      else if c = '\\' then
        match cs with
        | [] => none
        | e :: cs2 =>
            if e = 'u' then
              match cs2 with
              | h1 :: h2 :: h3 :: h4 :: cs3 =>
                  match hexVal h1, hexVal h2, hexVal h3, hexVal h4 with
                  | some a, some b, some c3, some d =>
                      match parseStrBody cs3 with
                      | some (body, rest) =>
                          some (Char.ofNat (4096 * a + 256 * b + 16 * c3 + d) :: body, rest)
                      | none => none
                  | _, _, _, _ => none
              | _ => none
            else
              match escDecode e with
              | some d =>
                  match parseStrBody cs2 with
                  | some (body, rest) => some (d :: body, rest)
                  | none => none
              | none => none
      else
        match parseStrBody cs with
        | some (body, rest) => some (c :: body, rest)
        | none => none

/-- Consume a maximal run of decimal digits, folding into `acc`. -/
def parseDigits : List Char → Nat → Nat × List Char
  | [], acc => (acc, [])
  | c :: cs, acc =>
      match digVal c with
      | some d => parseDigits cs (10 * acc + d)
      | none => (acc, c :: cs)

/-- Parse the digit run after a minus sign (at least one digit). -/
def parseNumNeg : List Char → Option (Int × List Char)
  | [] => none
  | d :: ds =>
      if (digVal d).isSome then
        some (-((parseDigits (d :: ds) 0).1 : Int), (parseDigits (d :: ds) 0).2)
      else none

/-- Parse an integer literal: an optional minus sign and a nonempty digit
run. -/
def parseNum : List Char → Option (Int × List Char)
  | [] => none
  | c :: cs =>
      if c = '-' then parseNumNeg cs
      else
        if (digVal c).isSome then
          some (((parseDigits (c :: cs) 0).1 : Int), (parseDigits (c :: cs) 0).2)
        else none

mutual

/-- Parse one JSON value (fuelled recursive descent): skip whitespace,
then dispatch on the first character. -/
def parseVal : Nat → List Char → Option (JValue × List Char)
  | 0, _ => none
  | Nat.succ fuel, cs => parseValCore fuel (skipWs cs)

/-- Dispatch on the first (non-whitespace) character of a value. -/
def parseValCore : Nat → List Char → Option (JValue × List Char)
  | 0, _ => none
  | Nat.succ fuel, cs =>
      match cs with
      | [] => none
      | c :: rest =>
          if c = '\x7b' then parseObj fuel (skipWs rest)
          else if c = '[' then parseArr fuel (skipWs rest)
          else if c = '"' then
            match parseStrBody rest with
            | some (body, rest2) => some (JValue.str (String.mk body), rest2)
            | none => none
          else if c = 'n' then
            match rest with
            | 'u' :: 'l' :: 'l' :: rest2 => some (JValue.null, rest2)
            | _ => none
          else if c = 't' then
            match rest with
            | 'r' :: 'u' :: 'e' :: rest2 => some (JValue.bool true, rest2)
            | _ => none
          else if c = 'f' then
            match rest with
            | 'a' :: 'l' :: 's' :: 'e' :: rest2 => some (JValue.bool false, rest2)
            | _ => none
          else
            match parseNum (c :: rest) with
            | some (n, rest2) => some (JValue.num n, rest2)
            | none => none

/-- The inside of an object, after the opening brace and whitespace. -/
def parseObj : Nat → List Char → Option (JValue × List Char)
  | 0, _ => none
  | Nat.succ fuel, cs =>
      match cs with
      | [] => none
      | d :: rest2 =>
          if d = '\x7d' then some (JValue.dict [], rest2)
          else
            match parseMems fuel (d :: rest2) with
            | some (ms, rest3) => some (JValue.dict ms, rest3)
            | none => none

/-- The inside of an array, after the opening bracket and whitespace. -/
def parseArr : Nat → List Char → Option (JValue × List Char)
  | 0, _ => none
  | Nat.succ fuel, cs =>
      match cs with
      | [] => none
      | d :: rest2 =>
          if d = ']' then some (JValue.list [], rest2)
          else
            match parseItems fuel (d :: rest2) with
            | some (vs, rest3) => some (JValue.list vs, rest3)
            | none => none

/-- Parse a nonempty member list of an object, consuming the closing
brace. -/
def parseMems : Nat → List Char → Option (List (String × JValue) × List Char)
  | 0, _ => none
  | Nat.succ fuel, cs =>
      match cs with
      | '"' :: rest =>
          (match parseStrBody rest with
           | some (kbody, rest2) =>
               match skipWs rest2 with
               | ':' :: rest3 =>
                   (match parseVal fuel rest3 with
                    | some (v, rest4) =>
                        (match skipWs rest4 with
                         | ',' :: rest5 =>
                             (match parseMems fuel (skipWs rest5) with
                              | some (ms, rest6) =>
                                  some ((String.mk kbody, v) :: ms, rest6)
                              | none => none)
                         | '\x7d' :: rest5 => some ([(String.mk kbody, v)], rest5)
                         | _ => none)
                    | none => none)
               | _ => none
           | none => none)
      | _ => none

/-- Parse a nonempty element list of an array, consuming the closing
bracket. -/
def parseItems : Nat → List Char → Option (List JValue × List Char)
  | 0, _ => none
  | Nat.succ fuel, cs =>
      match parseVal fuel cs with
      | some (v, rest) =>
          (match skipWs rest with
           | ',' :: rest2 =>
               (match parseItems fuel (skipWs rest2) with
                | some (vs, rest3) => some (v :: vs, rest3)
                | none => none)
           | ']' :: rest2 => some ([v], rest2)
           | _ => none)
      | none => none

end

/-- `json.loads` on a whole document: parse one value and require only
whitespace to follow. -/
def parseJson (s : String) : Option JValue :=
  match parseVal (4 * s.length + 8) s.toList with
  | some (v, rest) => if (skipWs rest).isEmpty then some v else none
  | none => none

/-! ## Claims about the downloader -/

/-! ### Auxiliary definitions for the claim theorems and witnesses -/

def netC3 : Nat → String → ReqResult := fun _ _ => ReqResult.resp 404 none

def netC5 : Nat → String → ReqResult := fun k _ =>
  if k = 0 then ReqResult.resp 200 (some (JValue.dict []))
  else ReqResult.resp 404 none

def netC1 : Nat → String → ReqResult := fun _ _ => ReqResult.exn

def netC2fail : Nat → String → ReqResult := fun _ _ => ReqResult.exn

def netC2ok : Nat → String → ReqResult := fun _ _ =>
  ReqResult.resp 200 (some (JValue.dict
    [("alley", JValue.dict [("type", JValue.num 0)]),
     ("brick", JValue.dict [("type", JValue.num 1)]),
     ("junk", JValue.num 7)]))

/-- A listing request answered with an HTTP error status carrying a
perfectly parseable JSON body (the server's diagnostic object). -/
def netC2err : Nat → String → ReqResult := fun _ _ =>
  ReqResult.resp 500 (some (JValue.dict [("error", JValue.str "oops")]))

/-- The listing's entry list, as `main` sees it (empty when the listing
failed and returned the Python list). -/
def listingPairs (net : Nat → String → ReqResult) : List (String × JValue) :=
  match (get_asset_list net startState).1 with
  | JValue.dict kvs => kvs
  | _ => []

def netC10 : Nat → String → ReqResult := fun _ u =>
  if u = assetsUrl then
    ReqResult.resp 200 (some (JValue.dict [("abc", JValue.dict [("type", JValue.num 0)])]))
  else if u = infoUrl "abc" then ReqResult.resp 404 none
  else if u = infoUrl "abc_4k" then ReqResult.resp 200 (some (JValue.dict []))
  else ReqResult.resp 404 none

/-- One step of the source's maximum-area fold (lines 81–82). -/
def maxStep (cur p : Int × Int) : Int × Int :=
  if p.1 * p.2 > cur.1 * cur.2 then p else cur

/-- The maximum-area fold over a flat list of resolution pairs, started
from `[0, 0]`. -/
def maxAreaFold (ps : List (Int × Int)) : Int × Int := ps.foldl maxStep (0, 0)

/-- A file entry `{"resolution": [w, h]}`. -/
def mkFileEntry (p : Int × Int) : JValue :=
  JValue.dict [("resolution", JValue.list [JValue.num p.1, JValue.num p.2])]

/-- A format dict mapping format names to file entries. -/
def mkFormats (fs : List (String × (Int × Int))) : JValue :=
  JValue.dict (fs.map (fun f => (f.1, mkFileEntry f.2)))

/-- A file-listing response `{"hdri": {res: {format: entry}}}`. -/
def mkFilesData (entries : List (String × List (String × (Int × Int)))) : JValue :=
  JValue.dict [("hdri", JValue.dict (entries.map (fun e => (e.1, mkFormats e.2))))]

/-- All resolution pairs of such a file listing, in scan order. -/
def resPairs (entries : List (String × List (String × (Int × Int)))) :
    List (Int × Int) :=
  (entries.map (fun e => e.2.map Prod.snd)).flatten

def filesC4 : JValue :=
  mkFilesData [("1k", [("hdr", (1920, 1080))]),
               ("4k", [("hdr", (3840, 2160)), ("exr", (100, 100))])]

def netC4 : Nat → String → ReqResult := fun k _ =>
  if k = 0 then ReqResult.resp 200 (some (JValue.dict []))
  else ReqResult.resp 200 (some filesC4)

def requiredFields : List String :=
  ["name", "type", "date_published", "download_count", "files_hash", "authors",
   "categories", "tags", "max_resolution", "dimensions", "thumbnail_url"]

def netC6 : Nat → String → ReqResult := fun k _ =>
  if k = 0 then ReqResult.resp 200 (some (JValue.dict []))
  else ReqResult.resp 500 none

/-- `true` when the input does not start with a decimal digit, so that a
just-parsed number cannot be extended by the remainder. -/
def noDigitHead : List Char → Bool
  | [] => true
  | c :: _ => (digVal c).isNone

/-- Accumulate a digit run the way `parseDigits` does. -/
def foldAcc (ds : List Char) (acc : Nat) : Nat :=
  ds.foldl (fun a c => 10 * a + (c.toNat - 48)) acc

mutual

/-- Fuel sufficient for `parseVal` to parse the printed form of `v`. -/
def sizeV : JValue → Nat
  | JValue.null => 2
  | JValue.bool _ => 2
  | JValue.num _ => 2
  | JValue.str _ => 2
  | JValue.list xs => 3 + sizeItems xs
  | JValue.dict kvs => 3 + sizeMems kvs

/-- Fuel sufficient for `parseItems` on the printed elements. -/
def sizeItems : List JValue → Nat
  | [] => 0
  | x :: xs => 1 + sizeV x + sizeItems xs

/-- Fuel sufficient for `parseMems` on the printed members. -/
def sizeMems : List (String × JValue) → Nat
  | [] => 0
  | kv :: kvs => 1 + sizeV kv.2 + sizeMems kvs

end
/-- C8: For every URL and destination directory, fetch (`download_file`)
is idempotent: if a file with the URL's basename already exists in the
destination directory — in particular after a first call that succeeded
with HTTP 200 — a subsequent call with the same URL and destination
performs no network request and leaves the filesystem unchanged. -/
theorem C8_fetch_idempotent :
    (∀ (outcome : DlOutcome) (url saveDir : String) (fs : List (String × List Nat)),
        fs.any (fun p => p.1 == saveDir ++ "/" ++ urlBasename url) = true →
        download_file outcome url saveDir fs = (fs, false)) ∧
    (∀ (url saveDir : String) (fs : List (String × List Nat))
        (chunks : List (List Nat)) (intr : Bool) (o2 : DlOutcome),
        download_file o2 url saveDir
            (download_file (DlOutcome.resp 200 chunks intr) url saveDir fs).1 =
          ((download_file (DlOutcome.resp 200 chunks intr) url saveDir fs).1, false)) := by
  constructor
  · intro outcome url saveDir fs h
    simp [download_file, h]
  · intro url saveDir fs chunks intr o2
    by_cases h : fs.any (fun p => p.1 == saveDir ++ "/" ++ urlBasename url) = true
    · simp [download_file, h]
    · simp only [Bool.not_eq_true] at h
      simp [download_file, h]

/-- C8 witness: a filesystem already holding the basename is left
unchanged with no request issued. -/
theorem C8_witness :
    download_file DlOutcome.connExn "https://dl.polyhaven.org/x/f_4k.hdr" "hdri_4k"
        [("hdri_4k/f_4k.hdr", [7])] =
      ([("hdri_4k/f_4k.hdr", [7])], false) :=
  C8_fetch_idempotent.1 DlOutcome.connExn "https://dl.polyhaven.org/x/f_4k.hdr"
    "hdri_4k" [("hdri_4k/f_4k.hdr", [7])] (by decide)

/-- C9: `download_file` is not atomic on transport error: when the
streaming GET returns HTTP 200 but is interrupted after some chunks, the
partially written file remains on disk under the URL's basename; because
filename existence is the sole dedup key, every subsequent call with the
same URL and directory skips without any network request, so the truncated
file is never re-fetched; only a non-200 status leaves the filesystem
unchanged. -/
theorem C9_partial_write_persists :
    (∀ (url saveDir : String) (fs : List (String × List Nat)) (chunks : List (List Nat)),
        fs.any (fun p => p.1 == saveDir ++ "/" ++ urlBasename url) = false →
        download_file (DlOutcome.resp 200 chunks true) url saveDir fs =
          ((saveDir ++ "/" ++ urlBasename url, chunks.flatten) :: fs, true)) ∧
    (∀ (o2 : DlOutcome) (url saveDir : String) (content : List Nat)
        (fs : List (String × List Nat)),
        download_file o2 url saveDir
            ((saveDir ++ "/" ++ urlBasename url, content) :: fs) =
          ((saveDir ++ "/" ++ urlBasename url, content) :: fs, false)) ∧
    (∀ (url saveDir : String) (fs : List (String × List Nat)) (status : Nat)
        (chunks : List (List Nat)) (intr : Bool),
        status ≠ 200 →
        (download_file (DlOutcome.resp status chunks intr) url saveDir fs).1 = fs) := by
  refine ⟨?_, ?_, ?_⟩
  · intro url saveDir fs chunks h
    simp [download_file, h]
  · intro o2 url saveDir content fs
    simp [download_file]
  · intro url saveDir fs status chunks intr h
    by_cases hex : fs.any (fun p => p.1 == saveDir ++ "/" ++ urlBasename url) = true
    · simp [download_file, hex]
    · simp only [Bool.not_eq_true] at hex
      simp [download_file, hex, h]

/-- C9 witness: an interrupted 200 download leaves the delivered chunks on
disk and the file is never re-fetched. -/
theorem C9_witness :
    download_file (DlOutcome.resp 200 [[1, 2], [3]] true)
        "https://dl.polyhaven.org/x/g_4k.hdr" "hdri_4k" [] =
      ([("hdri_4k/g_4k.hdr", [1, 2, 3])], true) :=
  C9_partial_write_persists.1 "https://dl.polyhaven.org/x/g_4k.hdr" "hdri_4k" []
    [[1, 2], [3]] (by decide)

/-! ## Claims about `get_asset_info` -/

/-- C3: a 404 on `/info/{id}` triggers exactly one fallback request to
`/info/{id}_4k`; a second 404 makes `get_asset_info` return `None`
immediately, after exactly those two requests, with no sleep and no
further attempt consumed from the retry budget. -/
theorem C3_404_fallback (net : Nat → String → ReqResult) (assetId : String)
    (maxRetries : Nat) (b1 b2 : Option JValue)
    (hmr : 0 < maxRetries)
    (h0 : net 0 (infoUrl assetId) = ReqResult.resp 404 b1)
    (h1 : net 1 (infoUrl (assetId ++ "_4k")) = ReqResult.resp 404 b2) :
    get_asset_info net assetId maxRetries =
      (none, { counter := 2,
               events := [Event.getReq (infoUrl assetId),
                          Event.getReq (infoUrl (assetId ++ "_4k"))] }) := by
  obtain ⟨n, rfl⟩ := Nat.exists_eq_succ_of_ne_zero (Nat.pos_iff_ne_zero.mp hmr)
  simp [get_asset_info, get_asset_info_from, fetchLoop, attemptFetch, requestGet,
    startState, h0, h1]

/-- C3 witness at a concrete identifier and network. -/
theorem C3_witness :
    get_asset_info netC3 "abc" 3 =
      (none, { counter := 2,
               events := [Event.getReq (infoUrl "abc"),
                          Event.getReq (infoUrl ("abc" ++ "_4k"))] }) :=
  C3_404_fallback netC3 "abc" 3 none none (by decide) rfl rfl

/-- C5: when the file listing contains no resolution entries — in
particular when the file-listing request returns a non-200 status and the
empty structure is substituted — the `max_resolution` field of the record
`get_asset_info` returns is the fixed default `[8192, 4096]`. -/
theorem C5_default_max_resolution (net : Nat → String → ReqResult)
    (assetId : String) (maxRetries : Nat) (data : List (String × JValue))
    (authors : List (String × JValue)) (fstatus : Nat) (fbody : Option JValue)
    (hmr : 0 < maxRetries)
    (h0 : net 0 (infoUrl assetId) = ReqResult.resp 200 (some (JValue.dict data)))
    (h1 : net 1 (filesUrl assetId) = ReqResult.resp fstatus fbody)
    (hauth : buildAuthors data = Except.ok authors)
    (hnores : (fstatus = 200 ∧ ∃ fd, fbody = some fd ∧ scanMaxRes fd = Except.ok (0, 0)) ∨
              fstatus ≠ 200) :
    (get_asset_info net assetId maxRetries).1 =
      some (assembleRecord assetId data authors (0, 0)) ∧
    jGet (assembleRecord assetId data authors (0, 0)) "max_resolution" =
      some (JValue.list [JValue.num 8192, JValue.num 4096]) := by
  obtain ⟨n, rfl⟩ := Nat.exists_eq_succ_of_ne_zero (Nat.pos_iff_ne_zero.mp hmr)
  constructor
  · rcases hnores with ⟨hf, fd, rfl, hscan⟩ | hf
    · subst hf
      simp [get_asset_info, get_asset_info_from, fetchLoop, attemptFetch,
        processResponse, requestGet, startState, h0, h1, hauth, hscan]
    · simp [get_asset_info, get_asset_info_from, fetchLoop, attemptFetch,
        processResponse, requestGet, startState, h0, h1, hauth, hf,
        scanMaxRes, pyIn]
  · rfl

/-- C5 witness: a concrete run whose file-listing request is answered 404
yields the default maximum resolution. -/
theorem C5_witness :
    (get_asset_info netC5 "abc" 3).1 = some (assembleRecord "abc" [] [] (0, 0)) ∧
    jGet (assembleRecord "abc" [] [] (0, 0)) "max_resolution" =
      some (JValue.list [JValue.num 8192, JValue.num 4096]) :=
  C5_default_max_resolution netC5 "abc" 3 [] [] 404 none (by decide) rfl rfl rfl
    (Or.inr (by decide))

/-- Trace of the retry loop when every info request raises a transport
exception: one request per attempt, a one-second sleep between
consecutive attempts, and a `none` result. -/
theorem fetchLoop_allExn (net : Nat → String → ReqResult) (assetId : String)
    (h : ∀ k, net k (infoUrl assetId) = ReqResult.exn) :
    ∀ (fuel : Nat) (s : FetchState),
      fetchLoop net fuel assetId s =
        (none, { counter := s.counter + fuel,
                 events := s.events ++ List.intersperse (Event.sleep 1)
                   (List.replicate fuel (Event.getReq (infoUrl assetId))) }) := by
  intro fuel
  induction fuel with
  | zero => intro s; simp [fetchLoop]
  | succ n ih =>
    intro s
    match n, ih with
    | 0, _ =>
        simp [fetchLoop, attemptFetch, requestGet, h]
    | Nat.succ m, ih =>
        rw [fetchLoop]
        rw [show attemptFetch net assetId s =
              (AttemptOutcome.transient, assetId,
               { counter := s.counter + 1,
                 events := s.events ++ [Event.getReq (infoUrl assetId)] }) by
            simp [attemptFetch, requestGet, h]]
        simp only [Nat.succ_ne_zero, if_false]
        rw [ih]
        simp only [List.replicate_succ, List.intersperse_cons_cons,
          List.intersperse_singleton]
        refine congrArg (fun st => ((none : Option JValue), st)) ?_
        refine congrArg₂ FetchState.mk
          (by show s.counter + 1 + (m + 1) = s.counter + (m + 1 + 1); omega) ?_
        simp [List.replicate_succ]

/-- C1: when every attempted detail request raises a transport-level
exception, `get_asset_info` makes exactly `max_retries` attempts with a
one-second pause between consecutive attempts, returns `None` without
propagating the exception, and the main loop therefore stores nothing for
the identifier and continues processing the remaining identifiers. -/
theorem C1_transport_retry_exhaustion (net : Nat → String → ReqResult)
    (assetId : String) (maxRetries : Nat)
    (h : ∀ k, net k (infoUrl assetId) = ReqResult.exn) :
    get_asset_info net assetId maxRetries =
      (none, { counter := maxRetries,
               events := List.intersperse (Event.sleep 1)
                 (List.replicate maxRetries (Event.getReq (infoUrl assetId))) }) ∧
    (∀ (tag : JValue) (rest : List (String × JValue)) (s : FetchState),
        (mainLoop net ((assetId, tag) :: rest) s).1 =
          (mainLoop net rest
            { counter := s.counter + 3,
              events := s.events ++ List.intersperse (Event.sleep 1)
                (List.replicate 3 (Event.getReq (infoUrl assetId))) ++
                [Event.sleep 1] }).1) := by
  constructor
  · have := fetchLoop_allExn net assetId h maxRetries startState
    simpa [get_asset_info, get_asset_info_from, startState] using this
  · intro tag rest s
    rw [mainLoop]
    rw [show get_asset_info_from net assetId 3 s =
          (none, { counter := s.counter + 3,
                   events := s.events ++ List.intersperse (Event.sleep 1)
                     (List.replicate 3 (Event.getReq (infoUrl assetId))) }) from
        fetchLoop_allExn net assetId h 3 s]

/-- C1 witness: a concrete all-failing network, identifier and budget. -/
theorem C1_witness :
    get_asset_info netC1 "abc" 3 =
      (none, { counter := 3,
               events := List.intersperse (Event.sleep 1)
                 (List.replicate 3 (Event.getReq (infoUrl "abc"))) }) ∧
    (mainLoop netC1 [("abc", JValue.str "hdri")] startState).1 =
      (mainLoop netC1 []
        { counter := 3,
          events := List.intersperse (Event.sleep 1)
            (List.replicate 3 (Event.getReq (infoUrl "abc"))) ++
            [Event.sleep 1] }).1 :=
  ⟨(C1_transport_retry_exhaustion netC1 "abc" 3 (fun _ => rfl)).1,
   (C1_transport_retry_exhaustion netC1 "abc" 3 (fun _ => rfl)).2
     (JValue.str "hdri") [] startState⟩

/-! ## The listing claim -/

theorem jFind_eq_none_of_not_mem : ∀ (kvs : List (String × JValue)) (id : String),
    id ∉ kvs.map Prod.fst → jFind kvs id = none
  | [], _, _ => rfl
  | (k2, _) :: rest, id, h => by
      simp only [List.map_cons, List.mem_cons, not_or] at h
      rw [jFind, if_neg (fun he => h.1 he.symm),
        jFind_eq_none_of_not_mem rest id h.2]

theorem hdriPick_fst (kv kv2 : String × JValue) (h : hdriPick kv = some kv2) :
    kv2.1 = kv.1 := by
  unfold hdriPick at h
  split at h
  · split at h
    · cases h; rfl
    · cases h
  · cases h

theorem mem_keys_filterMap_hdriPick (kvs : List (String × JValue)) (id : String)
    (h : id ∈ (kvs.filterMap hdriPick).map Prod.fst) : id ∈ kvs.map Prod.fst := by
  obtain ⟨kv2, h2, rfl⟩ := List.mem_map.mp h
  obtain ⟨kv, hkv, hpick⟩ := List.mem_filterMap.mp h2
  rw [hdriPick_fst kv kv2 hpick]
  exact List.mem_map_of_mem Prod.fst hkv

/-- Membership characterization of the filtered listing: an identifier
maps to the constant tag exactly when its entry is a dict whose `type`
field compares equal to `0`. -/
theorem jFind_filterMap_hdriPick : ∀ (kvs : List (String × JValue)) (id : String),
    (kvs.map Prod.fst).Nodup →
    (jFind (kvs.filterMap hdriPick) id = some (JValue.str "hdri") ↔
      ∃ vd, jFind kvs id = some (JValue.dict vd) ∧
        pyEqZero (pyGetDefault vd "type" JValue.null) = true) := by
  intro kvs
  induction kvs with
  | nil => intro id _; simp [jFind]
  | cons kv rest ih =>
    intro id hnd
    obtain ⟨k2, v⟩ := kv
    simp only [List.map_cons, List.nodup_cons] at hnd
    obtain ⟨hk2, hnd2⟩ := hnd
    by_cases hid : k2 = id
    · subst hid
      have hrest : jFind (rest.filterMap hdriPick) k2 = none :=
        jFind_eq_none_of_not_mem _ _
          (fun hmem => hk2 (mem_keys_filterMap_hdriPick rest k2 hmem))
      cases v with
      | dict vd =>
          by_cases hc : pyEqZero (pyGetDefault vd "type" JValue.null) = true
          · rw [List.filterMap_cons_some
              (show hdriPick (k2, JValue.dict vd) = some (k2, JValue.str "hdri") by
                simp [hdriPick, hc])]
            simp [jFind, hc]
          · rw [List.filterMap_cons_none
              (show hdriPick (k2, JValue.dict vd) = none by
                simp [hdriPick, hc])]
            simp only [Bool.not_eq_true] at hc
            simp [jFind, hrest, hc]
      | null => rw [List.filterMap_cons_none rfl]; simp [jFind, hrest]
      | bool b => rw [List.filterMap_cons_none rfl]; simp [jFind, hrest]
      | num n => rw [List.filterMap_cons_none rfl]; simp [jFind, hrest]
      | str s => rw [List.filterMap_cons_none rfl]; simp [jFind, hrest]
      | list xs => rw [List.filterMap_cons_none rfl]; simp [jFind, hrest]
    · have step : jFind (((k2, v) :: rest).filterMap hdriPick) id =
          jFind (rest.filterMap hdriPick) id := by
        rcases hp : hdriPick (k2, v) with _ | kv2
        · rw [List.filterMap_cons_none hp]
        · rw [List.filterMap_cons_some hp, jFind,
            if_neg (by rw [hdriPick_fst _ _ hp]; exact hid)]
      rw [step, jFind, if_neg hid]
      exact ih id hnd2

/-- C2 counterexample: on a transport failure the listing operation does
not return an empty mapping (Python dict); it returns a value of another
shape — the Python list `[]`. -/
theorem C2_counterexample :
    (get_asset_list netC2fail startState).1 ≠ JValue.dict [] := by
  intro h
  simp [get_asset_list, requestGet, netC2fail, startState] at h

/-- C2 (amended): on any failing run — transport exception, HTTP error
status 400–599 regardless of what body the error response carries, a
body that is not parseable JSON, or a parseable body that is not a dict —
`get_asset_list` returns the empty Python list `[]` (an empty sequence,
falsy exactly like an empty mapping, but a value of list shape rather than
an empty dict), and on success it returns the dict holding exactly the
identifiers whose listing entry is a dict whose declared `type` field
equals the HDRI type code 0. -/
theorem C2_listing_amended :
    (∀ (net : Nat → String → ReqResult) (s : FetchState),
        net s.counter assetsUrl = ReqResult.exn →
        (get_asset_list net s).1 = JValue.list []) ∧
    (∀ (net : Nat → String → ReqResult) (s : FetchState) (st : Nat)
        (body : Option JValue),
        net s.counter assetsUrl = ReqResult.resp st body →
        400 ≤ st → st < 600 →
        (get_asset_list net s).1 = JValue.list []) ∧
    (∀ (net : Nat → String → ReqResult) (s : FetchState) (st : Nat),
        net s.counter assetsUrl = ReqResult.resp st none →
        (get_asset_list net s).1 = JValue.list []) ∧
    (∀ (net : Nat → String → ReqResult) (s : FetchState) (st : Nat) (v : JValue),
        net s.counter assetsUrl = ReqResult.resp st (some v) →
        (∀ kvs, v ≠ JValue.dict kvs) →
        (get_asset_list net s).1 = JValue.list []) ∧
    pyTruthy (JValue.list []) = false ∧
    (∀ (net : Nat → String → ReqResult) (s : FetchState) (st : Nat)
        (kvs : List (String × JValue)),
        net s.counter assetsUrl = ReqResult.resp st (some (JValue.dict kvs)) →
        ¬(400 ≤ st ∧ st < 600) →
        (kvs.map Prod.fst).Nodup →
        (get_asset_list net s).1 = JValue.dict (kvs.filterMap hdriPick) ∧
        (∀ id, jGet (get_asset_list net s).1 id = some (JValue.str "hdri") ↔
          ∃ vd, jFind kvs id = some (JValue.dict vd) ∧
            pyEqZero (pyGetDefault vd "type" JValue.null) = true)) := by
  refine ⟨?_, ?_, ?_, ?_, rfl, ?_⟩
  · intro net s h
    simp [get_asset_list, requestGet, h]
  · intro net s st body h h4 h6
    simp [get_asset_list, requestGet, h, h4, h6]
  · intro net s st h
    by_cases he : 400 ≤ st ∧ st < 600
    · simp [get_asset_list, requestGet, h, he]
    · simp [get_asset_list, requestGet, h, he]
  · intro net s st v h hv
    by_cases he : 400 ≤ st ∧ st < 600
    · simp [get_asset_list, requestGet, h, he]
    · cases v with
      | dict kvs => exact absurd rfl (hv kvs)
      | null => simp [get_asset_list, requestGet, h, he]
      | bool b => simp [get_asset_list, requestGet, h, he]
      | num n => simp [get_asset_list, requestGet, h, he]
      | str t => simp [get_asset_list, requestGet, h, he]
      | list xs => simp [get_asset_list, requestGet, h, he]
  · intro net s st kvs h he hnd
    have hres : (get_asset_list net s).1 = JValue.dict (kvs.filterMap hdriPick) := by
      simp [get_asset_list, requestGet, h, he]
    refine ⟨hres, fun id => ?_⟩
    rw [hres]
    exact jFind_filterMap_hdriPick kvs id hnd

/-- C2 witness: the transport-failure branch at a concrete network, the
HTTP-error-status branch at a concrete 500 response whose body parses to a
JSON diagnostic object, and the success branch at a concrete three-entry
listing. -/
theorem C2_witness :
    (get_asset_list netC2fail startState).1 = JValue.list [] ∧
    (get_asset_list netC2err startState).1 = JValue.list [] ∧
    (get_asset_list netC2ok startState).1 =
      JValue.dict [("alley", JValue.str "hdri")] :=
  ⟨C2_listing_amended.1 netC2fail startState rfl,
   C2_listing_amended.2.1 netC2err startState 500
     (some (JValue.dict [("error", JValue.str "oops")])) rfl (by decide) (by decide),
   (C2_listing_amended.2.2.2.2.2 netC2ok startState 200 _ rfl (by decide)
     (by decide)).1⟩

/-! ## Keys of the final collection -/

/-- Keys produced by the processing loop come from its input list. -/
theorem mainLoop_keys_sub (net : Nat → String → ReqResult) :
    ∀ (l : List (String × JValue)) (s : FetchState) (k : String),
      k ∈ (mainLoop net l s).1.map Prod.fst → k ∈ l.map Prod.fst := by
  intro l
  induction l with
  | nil => intro s k hk; simp [mainLoop] at hk
  | cons hd tl ih =>
    intro s k hk
    obtain ⟨assetId, tag⟩ := hd
    rw [mainLoop] at hk
    rcases hr : (get_asset_info_from net assetId 3 s).1 with _ | info
    · rw [hr] at hk
      simp only [List.map_cons, List.mem_cons]
      exact Or.inr (ih _ k hk)
    · rw [hr] at hk
      simp only [List.map_cons, List.mem_cons] at hk ⊢
      rcases hk with h | h
      · exact Or.inl h
      · exact Or.inr (ih _ k h)

/-- C10: every key of the final Metadata Collection is an identifier
returned by the asset listing, among the first 843 in listing order —
even when the record was resolved only through the `id ++ "_4k"` fallback
identifier, it is stored under the original listing identifier. -/
theorem C10_keys_from_listing (net : Nat → String → ReqResult) (k : String)
    (h : k ∈ (mainCollection net).map Prod.fst) :
    k ∈ ((listingPairs net).take 843).map Prod.fst := by
  unfold mainCollection at h
  unfold listingPairs
  split at h
  · rename_i kvs s heq
    split at h
    · simp at h
    · rw [heq]
      simpa using mainLoop_keys_sub net (kvs.take 843) s k h
  · simp at h

/-- C10 witness: a run whose only asset resolves through the `_4k`
fallback still stores the record under the original listing key. -/
theorem C10_witness : "abc" ∈ ((listingPairs netC10).take 843).map Prod.fst :=
  C10_keys_from_listing netC10 "abc" (by decide)

/-! ## Maximum resolution by area -/

theorem scanFormats_mk (fs : List (String × (Int × Int))) (cur : Int × Int) :
    scanFormats (fs.map (fun f => (f.1, mkFileEntry f.2))) cur =
      Except.ok ((fs.map Prod.snd).foldl maxStep cur) := by
  induction fs generalizing cur with
  | nil => rfl
  | cons f rest ih =>
    obtain ⟨fname, w, h⟩ := f
    simp only [List.map_cons, List.foldl_cons]
    rw [show scanFormats
          ((fname, mkFileEntry (w, h)) :: rest.map (fun f => (f.1, mkFileEntry f.2))) cur =
        if w * h > cur.1 * cur.2 then
          scanFormats (rest.map (fun f => (f.1, mkFileEntry f.2))) (w, h)
        else scanFormats (rest.map (fun f => (f.1, mkFileEntry f.2))) cur from rfl]
    by_cases hc : w * h > cur.1 * cur.2
    · rw [if_pos hc, ih (w, h)]
      simp [maxStep, hc]
    · rw [if_neg hc, ih cur]
      simp [maxStep, hc]

theorem scanRes_mk (entries : List (String × List (String × (Int × Int))))
    (cur : Int × Int) :
    scanRes (entries.map (fun e => (e.1, mkFormats e.2))) cur =
      Except.ok ((resPairs entries).foldl maxStep cur) := by
  induction entries generalizing cur with
  | nil => rfl
  | cons e rest ih =>
    obtain ⟨rname, fs⟩ := e
    simp only [List.map_cons]
    calc scanRes ((rname, mkFormats fs) :: rest.map (fun e => (e.1, mkFormats e.2))) cur
        = scanRes (rest.map (fun e => (e.1, mkFormats e.2)))
            ((fs.map Prod.snd).foldl maxStep cur) := by
          rw [show scanRes
                ((rname, mkFormats fs) :: rest.map (fun e => (e.1, mkFormats e.2))) cur =
              (match scanFormats (fs.map (fun f => (f.1, mkFileEntry f.2))) cur with
               | Except.error _ => Except.error ()
               | Except.ok cur2 =>
                   scanRes (rest.map (fun e => (e.1, mkFormats e.2))) cur2) from rfl]
          rw [scanFormats_mk fs cur]
      _ = Except.ok ((resPairs ((rname, fs) :: rest)).foldl maxStep cur) := by
          rw [ih ((fs.map Prod.snd).foldl maxStep cur)]
          simp [resPairs, List.foldl_append]

theorem scanMaxRes_mk (entries : List (String × List (String × (Int × Int)))) :
    scanMaxRes (mkFilesData entries) = Except.ok (maxAreaFold (resPairs entries)) :=
  scanRes_mk entries (0, 0)

theorem maxStep_fold_mem : ∀ (ps : List (Int × Int)) (cur : Int × Int),
    ps.foldl maxStep cur = cur ∨ ps.foldl maxStep cur ∈ ps := by
  intro ps
  induction ps with
  | nil => intro cur; exact Or.inl rfl
  | cons p rest ih =>
    intro cur
    rw [List.foldl_cons]
    by_cases hc : p.1 * p.2 > cur.1 * cur.2
    · rw [show maxStep cur p = p from by simp [maxStep, hc]]
      rcases ih p with h | h
      · exact Or.inr (by rw [h]; exact List.mem_cons_self p rest)
      · exact Or.inr (List.mem_cons_of_mem p h)
    · rw [show maxStep cur p = cur from by simp [maxStep, hc]]
      rcases ih cur with h | h
      · exact Or.inl h
      · exact Or.inr (List.mem_cons_of_mem p h)

theorem maxStep_fold_ge_init : ∀ (ps : List (Int × Int)) (cur : Int × Int),
    cur.1 * cur.2 ≤ (ps.foldl maxStep cur).1 * (ps.foldl maxStep cur).2 := by
  intro ps
  induction ps with
  | nil => intro cur; exact le_refl _
  | cons p rest ih =>
    intro cur
    rw [List.foldl_cons]
    by_cases hc : p.1 * p.2 > cur.1 * cur.2
    · rw [show maxStep cur p = p from by simp [maxStep, hc]]
      exact le_trans (le_of_lt hc) (ih p)
    · rw [show maxStep cur p = cur from by simp [maxStep, hc]]
      exact ih cur

theorem maxStep_fold_ge_mem : ∀ (ps : List (Int × Int)) (cur : Int × Int)
    (p : Int × Int), p ∈ ps →
    p.1 * p.2 ≤ (ps.foldl maxStep cur).1 * (ps.foldl maxStep cur).2 := by
  intro ps
  induction ps with
  | nil => intro cur p hp; cases hp
  | cons q rest ih =>
    intro cur p hp
    rw [List.foldl_cons]
    rcases List.mem_cons.mp hp with h | h
    · subst h
      refine le_trans ?_ (maxStep_fold_ge_init rest (maxStep cur p))
      by_cases hc : p.1 * p.2 > cur.1 * cur.2
      · rw [show maxStep cur p = p from by simp [maxStep, hc]]
      · rw [show maxStep cur p = cur from by simp [maxStep, hc]]
        omega
    · exact ih (maxStep cur q) p h

/-- C4: the maximum resolution `get_asset_info` computes over a file
listing is the resolution pair of maximum area (width×height) across all
nested format/resolution entries — the scan equals a maximum-area fold,
whose result has area at least that of every listed pair and is one of
the listed pairs (or the initial `[0, 0]`); in particular a listing
holding (1920,1080), (3840,2160) and (100,100) yields (3840,2160). -/
theorem C4_max_resolution_area (entries : List (String × List (String × (Int × Int))))
    (p : Int × Int) (hp : p ∈ resPairs entries) :
    scanMaxRes (mkFilesData entries) = Except.ok (maxAreaFold (resPairs entries)) ∧
    p.1 * p.2 ≤ (maxAreaFold (resPairs entries)).1 * (maxAreaFold (resPairs entries)).2 ∧
    (maxAreaFold (resPairs entries) = (0, 0) ∨
      maxAreaFold (resPairs entries) ∈ resPairs entries) ∧
    scanMaxRes filesC4 = Except.ok (3840, 2160) ∧
    (∃ rec, (get_asset_info netC4 "abc" 3).1 = some rec ∧
      jGet rec "max_resolution" =
        some (JValue.list [JValue.num 3840, JValue.num 2160])) :=
  ⟨scanMaxRes_mk entries,
   maxStep_fold_ge_mem (resPairs entries) (0, 0) p hp,
   maxStep_fold_mem (resPairs entries) (0, 0),
   rfl,
   ⟨assembleRecord "abc" [] [] (3840, 2160), rfl, rfl⟩⟩

/-- C4 witness at the claim's own concrete listing. -/
theorem C4_witness :
    (1920, 1080) ∈ resPairs [("1k", [("hdr", (1920, 1080))]),
      ("4k", [("hdr", (3840, 2160)), ("exr", (100, 100))])] ∧
    scanMaxRes filesC4 = Except.ok (3840, 2160) ∧
    ((1920 : Int) * 1080 ≤
      (maxAreaFold (resPairs [("1k", [("hdr", (1920, 1080))]),
        ("4k", [("hdr", (3840, 2160)), ("exr", (100, 100))])])).1 *
      (maxAreaFold (resPairs [("1k", [("hdr", (1920, 1080))]),
        ("4k", [("hdr", (3840, 2160)), ("exr", (100, 100))])])).2) :=
  ⟨by decide,
   (C4_max_resolution_area [("1k", [("hdr", (1920, 1080))]),
      ("4k", [("hdr", (3840, 2160)), ("exr", (100, 100))])]
      (1920, 1080) (by decide)).2.2.2.1,
   (C4_max_resolution_area [("1k", [("hdr", (1920, 1080))]),
      ("4k", [("hdr", (3840, 2160)), ("exr", (100, 100))])]
      (1920, 1080) (by decide)).2.1⟩

/-! ## The record shape -/

/-- Every `AttemptOutcome.done (some rec)` a `processResponse` call
produces carries an assembled record. -/
theorem processResponse_done_some (net : Nat → String → ReqResult) (aid : String)
    (st : Nat) (body : Option JValue) (s : FetchState) (rec : JValue)
    (aid2 : String) (s2 : FetchState)
    (h : processResponse net aid st body s = (AttemptOutcome.done (some rec), aid2, s2)) :
    ∃ data authors maxRes, rec = assembleRecord aid data authors maxRes := by
  simp only [processResponse, requestGet] at h
  repeat' split at h
  all_goals (try simp at h)
  all_goals exact ⟨_, _, _, h.1.symm⟩

/-- Every `AttemptOutcome.done (some rec)` an `attemptFetch` call produces
carries an assembled record. -/
theorem attemptFetch_done_some (net : Nat → String → ReqResult) (aid : String)
    (s : FetchState) (rec : JValue) (aid2 : String) (s2 : FetchState)
    (h : attemptFetch net aid s = (AttemptOutcome.done (some rec), aid2, s2)) :
    ∃ aid3 data authors maxRes, rec = assembleRecord aid3 data authors maxRes := by
  simp only [attemptFetch, requestGet] at h
  repeat' split at h
  all_goals (try simp at h)
  all_goals
    obtain ⟨data, authors, maxRes, hrec⟩ :=
      processResponse_done_some net _ _ _ _ rec aid2 s2 h
  all_goals exact ⟨_, data, authors, maxRes, hrec⟩

/-- Every record the retry loop returns is an assembled record. -/
theorem fetchLoop_some (net : Nat → String → ReqResult) :
    ∀ (fuel : Nat) (aid : String) (s : FetchState) (rec : JValue),
      (fetchLoop net fuel aid s).1 = some rec →
      ∃ aid3 data authors maxRes, rec = assembleRecord aid3 data authors maxRes := by
  intro fuel
  induction fuel with
  | zero => intro aid s rec h; simp [fetchLoop] at h
  | succ n ih =>
    intro aid s rec h
    rw [fetchLoop] at h
    rcases ha : attemptFetch net aid s with ⟨out, aid2, s2⟩
    rw [ha] at h
    cases out with
    | done r =>
        simp only [] at h
        cases r with
        | none => simp at h
        | some v =>
            simp only [Option.some.injEq] at h
            subst h
            exact attemptFetch_done_some net aid s v aid2 s2 ha
    | transient =>
        simp only [] at h
        by_cases hn : n = 0
        · subst hn; simp at h
        · simp only [if_neg hn] at h
          exact ih aid2 _ rec h

/-- C6: every record a successful `get_asset_info` fetch returns carries
all eleven required fields, and each field the upstream API omits is
replaced in `assembleRecord` by its documented default rather than left
absent. -/
theorem C6_required_fields (net : Nat → String → ReqResult) (assetId : String)
    (maxRetries : Nat) (rec : JValue)
    (h : (get_asset_info net assetId maxRetries).1 = some rec) :
    (∀ k ∈ requiredFields, (jGet rec k).isSome = true) ∧
    (∀ (aid : String) (data authors : List (String × JValue)) (maxRes : Int × Int),
      (jFind data "name" = none →
        jGet (assembleRecord aid data authors maxRes) "name" =
          some (JValue.str (pyTitle (aid.replace "_" " ")))) ∧
      (jFind data "date_published" = none →
        jGet (assembleRecord aid data authors maxRes) "date_published" =
          some (JValue.num 0)) ∧
      (jFind data "download_count" = none →
        jGet (assembleRecord aid data authors maxRes) "download_count" =
          some (JValue.num 0)) ∧
      (jFind data "files_hash" = none →
        jGet (assembleRecord aid data authors maxRes) "files_hash" =
          some (JValue.str "")) ∧
      (authors = [] →
        jGet (assembleRecord aid data authors maxRes) "authors" =
          some (JValue.dict [("Unknown", JValue.str "All")])) ∧
      (jFind data "categories" = none →
        jGet (assembleRecord aid data authors maxRes) "categories" =
          some (JValue.list [])) ∧
      (jFind data "tags" = none →
        jGet (assembleRecord aid data authors maxRes) "tags" =
          some (JValue.list [])) ∧
      (maxRes = (0, 0) →
        jGet (assembleRecord aid data authors maxRes) "max_resolution" =
          some (JValue.list [JValue.num 8192, JValue.num 4096])) ∧
      jGet (assembleRecord aid data authors maxRes) "type" = some (JValue.num 0) ∧
      jGet (assembleRecord aid data authors maxRes) "dimensions" =
        some (JValue.list [JValue.num 30000, JValue.num 30000]) ∧
      (jFind data "thumbnail_url" = none →
        jGet (assembleRecord aid data authors maxRes) "thumbnail_url" =
          some (JValue.str (thumbUrl aid)))) := by
  constructor
  · obtain ⟨aid3, data, authors, maxRes, rfl⟩ :=
      fetchLoop_some net maxRetries assetId startState rec h
    intro k hk
    fin_cases hk <;> rfl
  · intro aid data authors maxRes
    refine ⟨?_, ?_, ?_, ?_, ?_, ?_, ?_, ?_, rfl, rfl, ?_⟩
    · intro hnone
      rw [show jGet (assembleRecord aid data authors maxRes) "name" =
          some (pyGetDefault data "name"
            (JValue.str (pyTitle (aid.replace "_" " ")))) from rfl]
      simp [pyGetDefault, hnone]
    · intro hnone
      rw [show jGet (assembleRecord aid data authors maxRes) "date_published" =
          some (pyGetDefault data "date_published" (JValue.num 0)) from rfl]
      simp [pyGetDefault, hnone]
    · intro hnone
      rw [show jGet (assembleRecord aid data authors maxRes) "download_count" =
          some (pyGetDefault data "download_count" (JValue.num 0)) from rfl]
      simp [pyGetDefault, hnone]
    · intro hnone
      rw [show jGet (assembleRecord aid data authors maxRes) "files_hash" =
          some (pyGetDefault data "files_hash" (JValue.str "")) from rfl]
      simp [pyGetDefault, hnone]
    · intro he
      subst he
      rfl
    · intro hnone
      rw [show jGet (assembleRecord aid data authors maxRes) "categories" =
          some (pyGetDefault data "categories" (JValue.list [])) from rfl]
      simp [pyGetDefault, hnone]
    · intro hnone
      rw [show jGet (assembleRecord aid data authors maxRes) "tags" =
          some (pyGetDefault data "tags" (JValue.list [])) from rfl]
      simp [pyGetDefault, hnone]
    · intro he
      subst he
      rfl
    · intro hnone
      rw [show jGet (assembleRecord aid data authors maxRes) "thumbnail_url" =
          some (pyGetDefault data "thumbnail_url" (JValue.str (thumbUrl aid))) from rfl]
      simp [pyGetDefault, hnone]

/-- C6 witness: a successful concrete fetch whose upstream detail object
is empty still produces a record holding the `name` field. -/
theorem C6_witness :
    (get_asset_info netC6 "abc" 3).1 = some (assembleRecord "abc" [] [] (0, 0)) ∧
    (jGet (assembleRecord "abc" [] [] (0, 0)) "name").isSome = true :=
  ⟨rfl, (C6_required_fields netC6 "abc" 3 (assembleRecord "abc" [] [] (0, 0)) rfl).1
    "name" (by decide)⟩

/-! ## Round-trip of the serialized document

The lemmas below culminate in: parsing the document `dumps` produces
returns exactly the serialized value. -/

theorem skipWs_cons_not_ws (c : Char) (cs : List Char) (h : isWsChar c = false) :
    skipWs (c :: cs) = c :: cs := by
  simp [skipWs, h]

theorem skipWs_ws_append : ∀ (ws cs : List Char), ws.all isWsChar = true →
    skipWs (ws ++ cs) = skipWs cs
  | [], _, _ => rfl
  | c :: rest, cs, h => by
      simp only [List.all_cons, Bool.and_eq_true] at h
      rw [List.cons_append]
      simp only [skipWs, h.1, if_true]
      exact skipWs_ws_append rest cs h.2

theorem replicate_space_all_ws : ∀ (m : Nat), (List.replicate m ' ').all isWsChar = true
  | 0 => rfl
  | Nat.succ k => by
      rw [List.replicate_succ, List.all_cons, replicate_space_all_ws k]
      rfl

theorem indentChars_all_ws (n : Nat) : (indentChars n).all isWsChar = true :=
  replicate_space_all_ws (2 * n)

theorem nlIndent_all_ws (n : Nat) : (('\n' :: indentChars n).all isWsChar) = true := by
  rw [List.all_cons, indentChars_all_ws]
  rfl

theorem digVal_bounds (c : Char) (h : (digVal c).isSome = true) :
    48 ≤ c.toNat ∧ c.toNat ≤ 57 := by
  by_cases hc : 48 ≤ c.toNat ∧ c.toNat ≤ 57
  · exact hc
  · rw [digVal, if_neg hc] at h
    simp at h

theorem digVal_eq_of_isSome (c : Char) (h : (digVal c).isSome = true) :
    digVal c = some (c.toNat - 48) := by
  rw [digVal, if_pos (digVal_bounds c h)]

theorem digVal_none_of_ws (c : Char) (h : isWsChar c = true) :
    (digVal c).isNone = true := by
  simp only [isWsChar] at h
  rw [digVal, if_neg]
  · rfl
  · simp only [Bool.or_eq_true, decide_eq_true_eq] at h
    omega

theorem noDigitHead_ws_append : ∀ (ws cs : List Char), ws.all isWsChar = true →
    noDigitHead cs = true → noDigitHead (ws ++ cs) = true
  | [], _, _, h2 => h2
  | c :: _, cs, h1, _ => by
      simp only [List.all_cons, Bool.and_eq_true] at h1
      rw [List.cons_append]
      exact digVal_none_of_ws c h1.1

theorem digitChar_toNat : ∀ k, k < 10 → (digitChar k).toNat = 48 + k := by decide

theorem digVal_digitChar : ∀ k, k < 10 → digVal (digitChar k) = some k := by decide

theorem hexVal_hexDigitChar : ∀ k, k < 16 → hexVal (hexDigitChar k) = some k := by decide

theorem natDigitsAux_all_digits : ∀ (fuel n : Nat), n ≤ fuel →
    (natDigitsAux fuel n).all (fun c => (digVal c).isSome) = true := by
  intro fuel
  induction fuel with
  | zero =>
      intro n h
      have hn : n = 0 := by omega
      subst hn
      rw [natDigitsAux, List.all_cons, digVal_digitChar 0 (by omega)]
      rfl
  | succ f ih =>
      intro n h
      rw [natDigitsAux]
      by_cases h10 : n < 10
      · rw [if_pos h10, List.all_cons, digVal_digitChar n h10]
        rfl
      · rw [if_neg h10, List.all_append]
        have hdiv : n / 10 ≤ f := by
          have := Nat.div_lt_self (show 0 < n by omega) (show 1 < 10 by omega)
          omega
        rw [ih (n / 10) hdiv, List.all_cons, digVal_digitChar (n % 10) (Nat.mod_lt n (by omega))]
        rfl

theorem foldAcc_natDigitsAux : ∀ (fuel n acc : Nat), n ≤ fuel →
    foldAcc (natDigitsAux fuel n) acc =
      acc * 10 ^ (natDigitsAux fuel n).length + n := by
  intro fuel
  induction fuel with
  | zero =>
      intro n acc h
      have hn : n = 0 := by omega
      subst hn
      rw [natDigitsAux]
      show 10 * acc + ((digitChar 0).toNat - 48) = acc * 10 ^ 1 + 0
      rw [digitChar_toNat 0 (by omega)]
      ring
  | succ f ih =>
      intro n acc h
      rw [natDigitsAux]
      by_cases h10 : n < 10
      · rw [if_pos h10]
        show 10 * acc + ((digitChar n).toNat - 48) = acc * 10 ^ 1 + n
        rw [digitChar_toNat n h10]
        have : (48 : Nat) + n - 48 = n := by omega
        rw [this]
        ring
      · rw [if_neg h10]
        have hdiv : n / 10 ≤ f := by
          have := Nat.div_lt_self (show 0 < n by omega) (show 1 < 10 by omega)
          omega
        rw [show foldAcc (natDigitsAux f (n / 10) ++ [digitChar (n % 10)]) acc =
            10 * foldAcc (natDigitsAux f (n / 10)) acc + ((digitChar (n % 10)).toNat - 48) by
          rw [foldAcc, List.foldl_append]
          rfl]
        rw [ih (n / 10) acc hdiv, digitChar_toNat (n % 10) (Nat.mod_lt n (by omega))]
        rw [List.length_append, List.length_cons, List.length_nil]
        have hmod : (48 : Nat) + n % 10 - 48 = n % 10 := by omega
        rw [hmod]
        calc 10 * (acc * 10 ^ (natDigitsAux f (n / 10)).length + n / 10) + n % 10
            = acc * 10 ^ ((natDigitsAux f (n / 10)).length + (0 + 1)) +
                (10 * (n / 10) + n % 10) := by ring
          _ = acc * 10 ^ ((natDigitsAux f (n / 10)).length + (0 + 1)) + n := by
                rw [Nat.div_add_mod]

theorem natDigits_all_digits (n : Nat) :
    (natDigits n).all (fun c => (digVal c).isSome) = true :=
  natDigitsAux_all_digits n n le_rfl

theorem foldAcc_natDigits (n : Nat) :
    foldAcc (natDigits n) 0 = n := by
  rw [natDigits, foldAcc_natDigitsAux n n 0 le_rfl]
  ring

theorem natDigitsAux_ne_nil : ∀ (fuel n : Nat), natDigitsAux fuel n ≠ [] := by
  intro fuel n
  cases fuel with
  | zero => simp [natDigitsAux]
  | succ f =>
      rw [natDigitsAux]
      by_cases h10 : n < 10
      · rw [if_pos h10]; simp
      · rw [if_neg h10]; simp

theorem natDigits_head (n : Nat) :
    ∃ c cs, natDigits n = c :: cs ∧ (digVal c).isSome = true := by
  rcases hl : natDigits n with _ | ⟨c, cs⟩
  · exact absurd hl (natDigitsAux_ne_nil n n)
  · refine ⟨c, cs, rfl, ?_⟩
    have := natDigits_all_digits n
    rw [hl, List.all_cons, Bool.and_eq_true] at this
    exact this.1

theorem parseDigits_stop (cs : List Char) (acc : Nat) (h : noDigitHead cs = true) :
    parseDigits cs acc = (acc, cs) := by
  cases cs with
  | nil => rfl
  | cons c rest =>
      have hd : (digVal c).isNone = true := h
      rw [parseDigits]
      rcases hv : digVal c with _ | d
      · rfl
      · rw [hv] at hd; cases hd

theorem parseDigits_run : ∀ (ds rest : List Char) (acc : Nat),
    ds.all (fun c => (digVal c).isSome) = true → noDigitHead rest = true →
    parseDigits (ds ++ rest) acc = (foldAcc ds acc, rest)
  | [], rest, acc, _, h2 => parseDigits_stop rest acc h2
  | c :: ds, rest, acc, h1, h2 => by
      simp only [List.all_cons, Bool.and_eq_true] at h1
      rw [List.cons_append, parseDigits, digVal_eq_of_isSome c h1.1]
      exact parseDigits_run ds rest (10 * acc + (c.toNat - 48)) h1.2 h2

theorem digit_ne_minus (c : Char) (h : (digVal c).isSome = true) : ¬c = '-' := by
  intro he
  subst he
  cases h

/-- Parsing the decimal rendering of an integer recovers the integer. -/
theorem parseNum_ppInt (n : Int) (rest : List Char) (h : noDigitHead rest = true) :
    parseNum (ppInt n ++ rest) = some (n, rest) := by
  obtain ⟨c, cs, hcons, hc⟩ := natDigits_head n.natAbs
  have hrun : parseDigits ((c :: cs) ++ rest) 0 = (foldAcc (c :: cs) 0, rest) := by
    refine parseDigits_run (c :: cs) rest 0 ?_ h
    rw [← hcons]
    exact natDigits_all_digits n.natAbs
  have hfold : foldAcc (c :: cs) 0 = n.natAbs := by
    rw [← hcons]; exact foldAcc_natDigits n.natAbs
  rw [ppInt]
  by_cases hn : n < 0
  · rw [if_pos hn, List.cons_append, hcons, parseNum, if_pos rfl,
      List.cons_append, parseNumNeg]
    rw [hc, if_pos rfl, show (c :: (cs ++ rest)) = ((c :: cs) ++ rest) from rfl, hrun, hfold]
    refine congrArg some (congrArg₂ Prod.mk ?_ rfl)
    omega
  · rw [if_neg hn, hcons, List.cons_append, parseNum]
    rw [if_neg (digit_ne_minus c hc), hc, if_pos rfl]
    rw [show (c :: (cs ++ rest)) = ((c :: cs) ++ rest) from rfl, hrun, hfold]
    refine congrArg some (congrArg₂ Prod.mk ?_ rfl)
    omega

/-- The short-escape path of the string parser. -/
theorem parseStrBody_shortEsc (e D : Char) (t : List Char)
    (he : escDecode e = some D) (hu : ¬e = 'u') :
    parseStrBody ('\\' :: e :: t) =
      (match parseStrBody t with
       | some (body, r2) => some (D :: body, r2)
       | none => none) := by
  rw [parseStrBody.eq_def]
  simp only [if_true]
  rw [if_neg hu, he, if_neg (show ¬('\\' : Char) = '"' by decide)]

/-- The `\u00xx` escape path of the string parser. -/
theorem parseStrBody_u (h3 h4 : Char) (a d : Nat) (t : List Char)
    (hv3 : hexVal h3 = some a) (hv4 : hexVal h4 = some d) :
    parseStrBody ('\\' :: 'u' :: '0' :: '0' :: h3 :: h4 :: t) =
      (match parseStrBody t with
       | some (body, r2) =>
           some (Char.ofNat (4096 * 0 + 256 * 0 + 16 * a + d) :: body, r2)
       | none => none) := by
  rw [parseStrBody.eq_def]
  simp only [if_true]
  rw [show hexVal '0' = some 0 from rfl, hv3, hv4,
    if_neg (show ¬('\\' : Char) = '"' by decide)]

/-- The plain-character path of the string parser. -/
theorem parseStrBody_plain (c : Char) (t : List Char)
    (h1 : ¬c = '"') (h2 : ¬c = '\\') :
    parseStrBody (c :: t) =
      (match parseStrBody t with
       | some (body, r2) => some (c :: body, r2)
       | none => none) := by
  rw [parseStrBody.eq_def]
  simp only []
  rw [if_neg h1, if_neg h2]

/-- Parsing an escaped string body up to the closing quote recovers the
original characters. -/
theorem parseStrBody_esc : ∀ (cs : List Char) (rest : List Char),
    parseStrBody ((cs.map escChar).flatten ++ '"' :: rest) = some (cs, rest) := by
  intro cs
  induction cs with
  | nil =>
      intro rest
      show parseStrBody ('"' :: rest) = some ([], rest)
      rw [parseStrBody.eq_def]
      simp only [if_true]
  | cons c cs ih =>
      intro rest
      simp only [List.map_cons, List.flatten_cons, List.append_assoc]
      by_cases h1 : c = '"'
      · subst h1
        rw [show escChar '"' = ['\\', '"'] from rfl]
        simp only [List.cons_append, List.nil_append]
        rw [parseStrBody_shortEsc '"' '"' _ rfl (by decide), ih rest]
      · by_cases h2 : c = '\\'
        · subst h2
          rw [show escChar '\\' = ['\\', '\\'] from rfl]
          simp only [List.cons_append, List.nil_append]
          rw [parseStrBody_shortEsc '\\' '\\' _ rfl (by decide), ih rest]
        · by_cases h3 : c = '\n'
          · subst h3
            rw [show escChar '\n' = ['\\', 'n'] from rfl]
            simp only [List.cons_append, List.nil_append]
            rw [parseStrBody_shortEsc 'n' '\n' _ rfl (by decide), ih rest]
          · by_cases h4 : c = '\r'
            · subst h4
              rw [show escChar '\r' = ['\\', 'r'] from rfl]
              simp only [List.cons_append, List.nil_append]
              rw [parseStrBody_shortEsc 'r' '\r' _ rfl (by decide), ih rest]
            · by_cases h5 : c = '\t'
              · subst h5
                rw [show escChar '\t' = ['\\', 't'] from rfl]
                simp only [List.cons_append, List.nil_append]
                rw [parseStrBody_shortEsc 't' '\t' _ rfl (by decide), ih rest]
              · by_cases h6 : c.toNat = 8
                · have hesc : escChar c = ['\\', 'b'] := by
                    simp only [escChar]
                    rw [if_neg h1, if_neg h2, if_neg h3, if_neg h4, if_neg h5, if_pos h6]
                  rw [hesc]
                  simp only [List.cons_append, List.nil_append]
                  rw [parseStrBody_shortEsc 'b' (Char.ofNat 8) _ rfl (by decide), ih rest]
                  have hc : Char.ofNat 8 = c := by rw [← h6, Char.ofNat_toNat]
                  rw [hc]
                · by_cases h7 : c.toNat = 12
                  · have hesc : escChar c = ['\\', 'f'] := by
                      simp only [escChar]
                      rw [if_neg h1, if_neg h2, if_neg h3, if_neg h4, if_neg h5,
                        if_neg h6, if_pos h7]
                    rw [hesc]
                    simp only [List.cons_append, List.nil_append]
                    rw [parseStrBody_shortEsc 'f' (Char.ofNat 12) _ rfl (by decide), ih rest]
                    have hc : Char.ofNat 12 = c := by rw [← h7, Char.ofNat_toNat]
                    rw [hc]
                  · by_cases h8 : c.toNat < 32
                    · have hesc : escChar c = ['\\', 'u', '0', '0',
                          hexDigitChar (c.toNat / 16), hexDigitChar (c.toNat % 16)] := by
                        simp only [escChar]
                        rw [if_neg h1, if_neg h2, if_neg h3, if_neg h4, if_neg h5,
                          if_neg h6, if_neg h7, if_pos h8]
                      have hv3 := hexVal_hexDigitChar (c.toNat / 16) (by omega)
                      have hv4 := hexVal_hexDigitChar (c.toNat % 16) (by omega)
                      rw [hesc]
                      simp only [List.cons_append, List.nil_append]
                      rw [parseStrBody_u _ _ _ _ _ hv3 hv4, ih rest]
                      have hc : Char.ofNat (4096 * 0 + 256 * 0 + 16 * (c.toNat / 16) +
                          c.toNat % 16) = c := by
                        have harith : 4096 * 0 + 256 * 0 + 16 * (c.toNat / 16) +
                            c.toNat % 16 = c.toNat := by omega
                        rw [harith, Char.ofNat_toNat]
                      rw [hc]
                    · have hesc : escChar c = [c] := by
                        simp only [escChar]
                        rw [if_neg h1, if_neg h2, if_neg h3, if_neg h4, if_neg h5,
                          if_neg h6, if_neg h7, if_neg h8]
                      rw [hesc]
                      simp only [List.cons_append, List.nil_append]
                      rw [parseStrBody_plain c _ h1 h2, ih rest]

/-! ### Fuel accounting and head characters -/

theorem sizeV_pos (v : JValue) : 2 ≤ sizeV v := by
  cases v <;> simp [sizeV] <;> omega

theorem digVal_isSome_not_ws (c : Char) (h : (digVal c).isSome = true) :
    isWsChar c = false := by
  have hb := digVal_bounds c h
  simp only [isWsChar, Bool.or_eq_false_iff, decide_eq_false_iff_not]
  omega

theorem digVal_isSome_ne_rbracket (c : Char) (h : (digVal c).isSome = true) :
    ¬c = ']' := by
  intro he
  subst he
  cases h

theorem ppVal_head (v : JValue) (ind : Nat) :
    ∃ c cs, ppVal v ind = c :: cs ∧ isWsChar c = false ∧ ¬c = ']' := by
  cases v with
  | null => exact ⟨'n', _, rfl, by decide, by decide⟩
  | bool b => cases b with
      | true => exact ⟨'t', _, rfl, by decide, by decide⟩
      | false => exact ⟨'f', _, rfl, by decide, by decide⟩
  | num n =>
      by_cases hn : n < 0
      · refine ⟨'-', natDigits n.natAbs, ?_, by decide, by decide⟩
        show ppInt n = _
        rw [ppInt, if_pos hn]
      · obtain ⟨c, cs, hcons, hc⟩ := natDigits_head n.natAbs
        refine ⟨c, cs, ?_, digVal_isSome_not_ws c hc, digVal_isSome_ne_rbracket c hc⟩
        show ppInt n = _
        rw [ppInt, if_neg hn, hcons]
  | str s =>
      exact ⟨'"', _, rfl, by decide, by decide⟩
  | list xs => cases xs with
      | nil => exact ⟨'[', _, rfl, by decide, by decide⟩
      | cons x xs => exact ⟨'[', _, rfl, by decide, by decide⟩
  | dict kvs => cases kvs with
      | nil => exact ⟨'\x7b', _, rfl, by decide, by decide⟩
      | cons kv kvs => exact ⟨'\x7b', _, rfl, by decide, by decide⟩

theorem skipWs_ppVal (v : JValue) (ind : Nat) (X : List Char) :
    skipWs (ppVal v ind ++ X) = ppVal v ind ++ X := by
  obtain ⟨c, cs, hc, hws, _⟩ := ppVal_head v ind
  rw [hc, List.cons_append, skipWs_cons_not_ws c _ hws]

theorem ppMems_head (kv : String × JValue) (kvs : List (String × JValue)) (ind : Nat) :
    ∃ tail, ppMems (kv :: kvs) ind = '"' :: tail := by
  obtain ⟨k, v⟩ := kv
  cases kvs with
  | nil =>
      refine ⟨(k.toList.map escChar).flatten ++ '"' :: ':' :: ' ' :: ppVal v ind, ?_⟩
      show ppStr k ++ ':' :: ' ' :: ppVal v ind = _
      simp [ppStr, List.cons_append, List.append_assoc]
  | cons m rest =>
      refine ⟨(k.toList.map escChar).flatten ++ ('"' :: ':' :: ' ' :: ppVal v ind ++
        ',' :: '\n' :: indentChars ind ++ ppMems (m :: rest) ind), ?_⟩
      show ppStr k ++ ':' :: ' ' :: ppVal v ind ++ ',' :: '\n' :: indentChars ind ++
        ppMems (m :: rest) ind = _
      simp [ppStr, List.cons_append, List.append_assoc]

theorem ppItems_head (x : JValue) (xs : List JValue) (ind : Nat) :
    ∃ c cs, ppItems (x :: xs) ind = c :: cs ∧ isWsChar c = false ∧ ¬c = ']' := by
  obtain ⟨c, cs, hc, hws, hrb⟩ := ppVal_head x ind
  cases xs with
  | nil => exact ⟨c, cs, by rw [ppItems, hc], hws, hrb⟩
  | cons y rest =>
      refine ⟨c, cs ++ (',' :: '\n' :: indentChars ind ++ ppItems (y :: rest) ind), ?_, hws, hrb⟩
      rw [ppItems, hc]
      simp [List.cons_append, List.append_assoc]

theorem parseVal_ws (fuel : Nat) (ws cs : List Char) (h : ws.all isWsChar = true) :
    parseVal fuel (ws ++ cs) = parseVal fuel cs := by
  cases fuel with
  | zero => rfl
  | succ f => rw [parseVal, parseVal, skipWs_ws_append ws cs h]

theorem skipWs_nonws_append (A B : List Char)
    (h : ∃ c cs, A = c :: cs ∧ isWsChar c = false) :
    skipWs (A ++ B) = A ++ B := by
  obtain ⟨c, cs, rfl, hws⟩ := h
  rw [List.cons_append, skipWs_cons_not_ws c _ hws]

theorem parseObj_cons (g : Nat) (d : Char) (X : List Char) (h : ¬d = '\x7d') :
    parseObj (g + 1) (d :: X) =
      (match parseMems g (d :: X) with
       | some (ms, rest3) => some (JValue.dict ms, rest3)
       | none => none) := by
  rw [show parseObj (g + 1) (d :: X) =
      (if d = '\x7d' then some (JValue.dict [], X)
       else match parseMems g (d :: X) with
            | some (ms, rest3) => some (JValue.dict ms, rest3)
            | none => none) from rfl, if_neg h]

theorem parseArr_cons (g : Nat) (d : Char) (X : List Char) (h : ¬d = ']') :
    parseArr (g + 1) (d :: X) =
      (match parseItems g (d :: X) with
       | some (vs, rest3) => some (JValue.list vs, rest3)
       | none => none) := by
  rw [show parseArr (g + 1) (d :: X) =
      (if d = ']' then some (JValue.list [], X)
       else match parseItems g (d :: X) with
            | some (vs, rest3) => some (JValue.list vs, rest3)
            | none => none) from rfl, if_neg h]

theorem parseValCore_num (g : Nat) (c : Char) (X : List Char)
    (h1 : ¬c = '\x7b') (h2 : ¬c = '[') (h3 : ¬c = '"') (h4 : ¬c = 'n')
    (h5 : ¬c = 't') (h6 : ¬c = 'f') :
    parseValCore (g + 1) (c :: X) =
      (match parseNum (c :: X) with
       | some (n, rest2) => some (JValue.num n, rest2)
       | none => none) := by
  rw [show parseValCore (g + 1) (c :: X) =
      (if c = '\x7b' then parseObj g (skipWs X)
       else if c = '[' then parseArr g (skipWs X)
       else if c = '"' then
         match parseStrBody X with
         | some (body, rest2) => some (JValue.str (String.mk body), rest2)
         | none => none
       else if c = 'n' then
         match X with
         | 'u' :: 'l' :: 'l' :: rest2 => some (JValue.null, rest2)
         | _ => none
       else if c = 't' then
         match X with
         | 'r' :: 'u' :: 'e' :: rest2 => some (JValue.bool true, rest2)
         | _ => none
       else if c = 'f' then
         match X with
         | 'a' :: 'l' :: 's' :: 'e' :: rest2 => some (JValue.bool false, rest2)
         | _ => none
       else
         match parseNum (c :: X) with
         | some (n, rest2) => some (JValue.num n, rest2)
         | none => none) from rfl]
  rw [if_neg h1, if_neg h2, if_neg h3, if_neg h4, if_neg h5, if_neg h6]

theorem digit_ne_special (c : Char) (h : (digVal c).isSome = true) :
    ¬c = '\x7b' ∧ ¬c = '[' ∧ ¬c = '"' ∧ ¬c = 'n' ∧ ¬c = 't' ∧ ¬c = 'f' := by
  have hb := digVal_bounds c h
  refine ⟨?_, ?_, ?_, ?_, ?_, ?_⟩ <;> (intro he; subst he; revert hb; decide)

/-- The heart of the round-trip: with enough fuel, every parser layer
applied to the printed form (followed by a non-digit remainder and
whitespace before the closing delimiter) returns the printed value. -/
theorem parse_pp_all : ∀ (fuel : Nat),
    (∀ (v : JValue) (ind : Nat) (rest : List Char),
        sizeV v ≤ fuel → noDigitHead rest = true →
        parseVal fuel (ppVal v ind ++ rest) = some (v, rest)) ∧
    (∀ (v : JValue) (ind : Nat) (rest : List Char),
        sizeV v ≤ fuel + 1 → noDigitHead rest = true →
        parseValCore fuel (ppVal v ind ++ rest) = some (v, rest)) ∧
    (∀ (rest : List Char), 1 ≤ fuel →
        parseObj fuel ('\x7d' :: rest) = some (JValue.dict [], rest)) ∧
    (∀ (kvs : List (String × JValue)) (ind : Nat) (ws rest : List Char),
        kvs ≠ [] → 1 + sizeMems kvs ≤ fuel → ws.all isWsChar = true →
        parseObj fuel (ppMems kvs ind ++ (ws ++ '\x7d' :: rest)) =
          some (JValue.dict kvs, rest)) ∧
    (∀ (rest : List Char), 1 ≤ fuel →
        parseArr fuel (']' :: rest) = some (JValue.list [], rest)) ∧
    (∀ (xs : List JValue) (ind : Nat) (ws rest : List Char),
        xs ≠ [] → 1 + sizeItems xs ≤ fuel → ws.all isWsChar = true →
        parseArr fuel (ppItems xs ind ++ (ws ++ ']' :: rest)) =
          some (JValue.list xs, rest)) ∧
    (∀ (kvs : List (String × JValue)) (ind : Nat) (ws rest : List Char),
        kvs ≠ [] → sizeMems kvs ≤ fuel → ws.all isWsChar = true →
        parseMems fuel (ppMems kvs ind ++ (ws ++ '\x7d' :: rest)) =
          some (kvs, rest)) ∧
    (∀ (xs : List JValue) (ind : Nat) (ws rest : List Char),
        xs ≠ [] → sizeItems xs ≤ fuel → ws.all isWsChar = true →
        parseItems fuel (ppItems xs ind ++ (ws ++ ']' :: rest)) =
          some (xs, rest)) := by
  intro fuel
  induction fuel with
  | zero =>
      refine ⟨?_, ?_, ?_, ?_, ?_, ?_, ?_, ?_⟩
      · intro v _ _ hs _; exact absurd hs (by have := sizeV_pos v; omega)
      · intro v _ _ hs _; exact absurd hs (by have := sizeV_pos v; omega)
      · intro _ h1; exact absurd h1 (by omega)
      · intro _ _ _ _ _ hs _; exact absurd hs (by omega)
      · intro _ h1; exact absurd h1 (by omega)
      · intro _ _ _ _ _ hs _; exact absurd hs (by omega)
      · intro kvs _ _ _ hne hs _
        cases kvs with
        | nil => exact absurd rfl hne
        | cons kv r => exact absurd hs (by rw [sizeMems]; omega)
      · intro xs _ _ _ hne hs _
        cases xs with
        | nil => exact absurd rfl hne
        | cons x r => exact absurd hs (by rw [sizeItems]; omega)
  | succ f ih =>
      obtain ⟨ihV, ihC, ihOe, ihO, ihAe, ihA, ihM, ihI⟩ := ih
      refine ⟨?_, ?_, ?_, ?_, ?_, ?_, ?_, ?_⟩
      -- parseVal
      · intro v ind rest hs hnd
        rw [show parseVal (f + 1) (ppVal v ind ++ rest) =
            parseValCore f (skipWs (ppVal v ind ++ rest)) from rfl, skipWs_ppVal]
        exact ihC v ind rest hs hnd
      -- parseValCore
      · intro v ind rest hs hnd
        cases v with
        | null => exact rfl
        | bool b => cases b with
            | true => exact rfl
            | false => exact rfl
        | num n =>
            by_cases hn : n < 0
            · have hpp : ppVal (JValue.num n) ind = '-' :: natDigits n.natAbs := by
                show ppInt n = _
                rw [ppInt, if_pos hn]
              rw [hpp, List.cons_append,
                parseValCore_num f '-' _ (by decide) (by decide) (by decide)
                  (by decide) (by decide) (by decide)]
              have harg : ('-' :: (natDigits n.natAbs ++ rest)) = ppInt n ++ rest := by
                rw [ppInt, if_pos hn, List.cons_append]
              rw [harg, parseNum_ppInt n rest hnd]
            · obtain ⟨c, cs, hcons, hc⟩ := natDigits_head n.natAbs
              obtain ⟨hs1, hs2, hs3, hs4, hs5, hs6⟩ := digit_ne_special c hc
              have hpp : ppVal (JValue.num n) ind = c :: cs := by
                show ppInt n = _
                rw [ppInt, if_neg hn, hcons]
              rw [hpp, List.cons_append,
                parseValCore_num f c _ hs1 hs2 hs3 hs4 hs5 hs6]
              have harg : (c :: (cs ++ rest)) = ppInt n ++ rest := by
                rw [ppInt, if_neg hn, hcons, List.cons_append]
              rw [harg, parseNum_ppInt n rest hnd]
        | str s =>
            have hpp : ppVal (JValue.str s) ind ++ rest =
                '"' :: ((s.toList.map escChar).flatten ++ '"' :: rest) := by
              show ppStr s ++ rest = _
              simp [ppStr, List.cons_append, List.append_assoc]
            rw [hpp,
              show parseValCore (f + 1)
                  ('"' :: ((s.toList.map escChar).flatten ++ '"' :: rest)) =
                (match parseStrBody ((s.toList.map escChar).flatten ++ '"' :: rest) with
                 | some (body, rest2) => some (JValue.str (String.mk body), rest2)
                 | none => none) from rfl,
              parseStrBody_esc s.toList rest]
            rfl
        | list xs =>
            cases xs with
            | nil =>
                rw [show parseValCore (f + 1) (ppVal (JValue.list []) ind ++ rest) =
                    parseArr f (']' :: rest) from rfl]
                refine ihAe rest ?_
                rw [show sizeV (JValue.list []) = 3 from rfl] at hs
                omega
            | cons x xs =>
                have hpp : ppVal (JValue.list (x :: xs)) ind ++ rest =
                    '[' :: ('\n' :: (indentChars (ind + 1) ++
                      (ppItems (x :: xs) (ind + 1) ++
                        ('\n' :: indentChars ind ++ (']' :: rest))))) := by
                  rw [ppVal]
                  simp [List.cons_append, List.append_assoc]
                rw [hpp,
                  show parseValCore (f + 1) ('[' :: ('\n' :: (indentChars (ind + 1) ++
                      (ppItems (x :: xs) (ind + 1) ++
                        ('\n' :: indentChars ind ++ (']' :: rest)))))) =
                    parseArr f (skipWs ('\n' :: (indentChars (ind + 1) ++
                      (ppItems (x :: xs) (ind + 1) ++
                        ('\n' :: indentChars ind ++ (']' :: rest)))))) from rfl]
                rw [show ('\n' :: (indentChars (ind + 1) ++
                      (ppItems (x :: xs) (ind + 1) ++
                        ('\n' :: indentChars ind ++ (']' :: rest))))) =
                    ('\n' :: indentChars (ind + 1)) ++
                      (ppItems (x :: xs) (ind + 1) ++
                        ('\n' :: indentChars ind ++ (']' :: rest))) from by
                  simp [List.cons_append]]
                rw [skipWs_ws_append _ _ (nlIndent_all_ws (ind + 1))]
                rw [skipWs_nonws_append _ _
                  (by obtain ⟨c, cs, hc, hws, _⟩ := ppItems_head x xs (ind + 1)
                      exact ⟨c, cs, hc, hws⟩)]
                rw [show ('\n' :: indentChars ind ++ (']' :: rest)) =
                    (('\n' :: indentChars ind) ++ (']' :: rest)) from rfl]
                refine ihA (x :: xs) (ind + 1) ('\n' :: indentChars ind) rest
                  (by simp) ?_ (nlIndent_all_ws ind)
                rw [show sizeV (JValue.list (x :: xs)) =
                    3 + sizeItems (x :: xs) from rfl] at hs
                omega
        | dict kvs =>
            cases kvs with
            | nil =>
                rw [show parseValCore (f + 1) (ppVal (JValue.dict []) ind ++ rest) =
                    parseObj f ('\x7d' :: rest) from rfl]
                refine ihOe rest ?_
                rw [show sizeV (JValue.dict []) = 3 from rfl] at hs
                omega
            | cons kv kvs =>
                have hpp : ppVal (JValue.dict (kv :: kvs)) ind ++ rest =
                    '\x7b' :: ('\n' :: (indentChars (ind + 1) ++
                      (ppMems (kv :: kvs) (ind + 1) ++
                        ('\n' :: indentChars ind ++ ('\x7d' :: rest))))) := by
                  rw [ppVal]
                  simp [List.cons_append, List.append_assoc]
                rw [hpp,
                  show parseValCore (f + 1) ('\x7b' :: ('\n' :: (indentChars (ind + 1) ++
                      (ppMems (kv :: kvs) (ind + 1) ++
                        ('\n' :: indentChars ind ++ ('\x7d' :: rest)))))) =
                    parseObj f (skipWs ('\n' :: (indentChars (ind + 1) ++
                      (ppMems (kv :: kvs) (ind + 1) ++
                        ('\n' :: indentChars ind ++ ('\x7d' :: rest)))))) from rfl]
                rw [show ('\n' :: (indentChars (ind + 1) ++
                      (ppMems (kv :: kvs) (ind + 1) ++
                        ('\n' :: indentChars ind ++ ('\x7d' :: rest))))) =
                    ('\n' :: indentChars (ind + 1)) ++
                      (ppMems (kv :: kvs) (ind + 1) ++
                        ('\n' :: indentChars ind ++ ('\x7d' :: rest))) from by
                  simp [List.cons_append]]
                rw [skipWs_ws_append _ _ (nlIndent_all_ws (ind + 1))]
                rw [skipWs_nonws_append _ _
                  (by obtain ⟨tail, htail⟩ := ppMems_head kv kvs (ind + 1)
                      exact ⟨'"', tail, htail, by decide⟩)]
                rw [show ('\n' :: indentChars ind ++ ('\x7d' :: rest)) =
                    (('\n' :: indentChars ind) ++ ('\x7d' :: rest)) from rfl]
                refine ihO (kv :: kvs) (ind + 1) ('\n' :: indentChars ind) rest
                  (by simp) ?_ (nlIndent_all_ws ind)
                rw [show sizeV (JValue.dict (kv :: kvs)) =
                    3 + sizeMems (kv :: kvs) from rfl] at hs
                omega
      -- parseObj on the empty object
      · intro rest _
        exact rfl
      -- parseObj on a nonempty object
      · intro kvs ind ws rest hne hs hws
        cases kvs with
        | nil => exact absurd rfl hne
        | cons kv kvs =>
            obtain ⟨tail, htail⟩ := ppMems_head kv kvs ind
            rw [htail, List.cons_append,
              parseObj_cons f '"' _ (by decide), ← List.cons_append, ← htail]
            rw [ihM (kv :: kvs) ind ws rest hne (by omega) hws]
      -- parseArr on the empty array
      · intro rest _
        exact rfl
      -- parseArr on a nonempty array
      · intro xs ind ws rest hne hs hws
        cases xs with
        | nil => exact absurd rfl hne
        | cons x xs =>
            obtain ⟨c, cs, hc, hnws, hrb⟩ := ppItems_head x xs ind
            rw [hc, List.cons_append, parseArr_cons f c _ hrb,
              ← List.cons_append, ← hc]
            rw [ihI (x :: xs) ind ws rest hne (by omega) hws]
      -- parseMems
      · intro kvs ind ws rest hne hs hws
        cases kvs with
        | nil => exact absurd rfl hne
        | cons kv kvs =>
            obtain ⟨k, v⟩ := kv
            simp only [sizeMems, sizeItems, sizeV] at hs
            cases kvs with
            | nil =>
                have hpp : ppMems [(k, v)] ind ++ (ws ++ '\x7d' :: rest) =
                    '"' :: ((k.toList.map escChar).flatten ++ '"' ::
                      (':' :: (' ' :: (ppVal v ind ++ (ws ++ '\x7d' :: rest))))) := by
                  show ppStr k ++ ':' :: ' ' :: ppVal v ind ++ (ws ++ '\x7d' :: rest) = _
                  simp [ppStr, List.cons_append, List.append_assoc]
                rw [hpp,
                  show parseMems (f + 1) ('"' :: ((k.toList.map escChar).flatten ++ '"' ::
                      (':' :: (' ' :: (ppVal v ind ++ (ws ++ '\x7d' :: rest)))))) =
                    (match parseStrBody ((k.toList.map escChar).flatten ++ '"' ::
                        (':' :: (' ' :: (ppVal v ind ++ (ws ++ '\x7d' :: rest))))) with
                     | some (kbody, rest2) =>
                         (match skipWs rest2 with
                          | ':' :: rest3 =>
                              (match parseVal f rest3 with
                               | some (v2, rest4) =>
                                   (match skipWs rest4 with
                                    | ',' :: rest5 =>
                                        (match parseMems f (skipWs rest5) with
                                         | some (ms, rest6) =>
                                             some ((String.mk kbody, v2) :: ms, rest6)
                                         | none => none)
                                    | '\x7d' :: rest5 =>
                                        some ([(String.mk kbody, v2)], rest5)
                                    | _ => none)
                               | none => none)
                          | _ => none)
                     | none => none) from rfl,
                  parseStrBody_esc k.toList]
                simp only []
                rw [skipWs_cons_not_ws ':' _ (by decide)]
                simp only []
                rw [show (' ' :: (ppVal v ind ++ (ws ++ '\x7d' :: rest))) =
                    [' '] ++ (ppVal v ind ++ (ws ++ '\x7d' :: rest)) from rfl,
                  parseVal_ws f _ _ (by decide),
                  ihV v ind (ws ++ '\x7d' :: rest) (by omega)
                    (noDigitHead_ws_append ws _ hws rfl)]
                simp only []
                rw [skipWs_ws_append ws _ hws, skipWs_cons_not_ws '\x7d' _ (by decide)]
                rfl
            | cons m kvs2 =>
                have hpp : ppMems ((k, v) :: m :: kvs2) ind ++ (ws ++ '\x7d' :: rest) =
                    '"' :: ((k.toList.map escChar).flatten ++ '"' ::
                      (':' :: (' ' :: (ppVal v ind ++ (',' :: ('\n' ::
                        (indentChars ind ++ (ppMems (m :: kvs2) ind ++
                          (ws ++ '\x7d' :: rest))))))))) := by
                  show ppStr k ++ ':' :: ' ' :: ppVal v ind ++
                      ',' :: '\n' :: indentChars ind ++ ppMems (m :: kvs2) ind ++
                      (ws ++ '\x7d' :: rest) = _
                  simp [ppStr, List.cons_append, List.append_assoc]
                rw [hpp,
                  show parseMems (f + 1) ('"' :: ((k.toList.map escChar).flatten ++ '"' ::
                      (':' :: (' ' :: (ppVal v ind ++ (',' :: ('\n' ::
                        (indentChars ind ++ (ppMems (m :: kvs2) ind ++
                          (ws ++ '\x7d' :: rest)))))))))) =
                    (match parseStrBody ((k.toList.map escChar).flatten ++ '"' ::
                        (':' :: (' ' :: (ppVal v ind ++ (',' :: ('\n' ::
                          (indentChars ind ++ (ppMems (m :: kvs2) ind ++
                            (ws ++ '\x7d' :: rest))))))))) with
                     | some (kbody, rest2) =>
                         (match skipWs rest2 with
                          | ':' :: rest3 =>
                              (match parseVal f rest3 with
                               | some (v2, rest4) =>
                                   (match skipWs rest4 with
                                    | ',' :: rest5 =>
                                        (match parseMems f (skipWs rest5) with
                                         | some (ms, rest6) =>
                                             some ((String.mk kbody, v2) :: ms, rest6)
                                         | none => none)
                                    | '\x7d' :: rest5 =>
                                        some ([(String.mk kbody, v2)], rest5)
                                    | _ => none)
                               | none => none)
                          | _ => none)
                     | none => none) from rfl,
                  parseStrBody_esc k.toList]
                simp only []
                rw [skipWs_cons_not_ws ':' _ (by decide)]
                simp only []
                rw [show (' ' :: (ppVal v ind ++ (',' :: ('\n' ::
                      (indentChars ind ++ (ppMems (m :: kvs2) ind ++
                        (ws ++ '\x7d' :: rest))))))) =
                    [' '] ++ (ppVal v ind ++ (',' :: ('\n' ::
                      (indentChars ind ++ (ppMems (m :: kvs2) ind ++
                        (ws ++ '\x7d' :: rest)))))) from rfl,
                  parseVal_ws f _ _ (by decide),
                  ihV v ind (',' :: ('\n' :: (indentChars ind ++
                    (ppMems (m :: kvs2) ind ++ (ws ++ '\x7d' :: rest)))))
                    (by omega) rfl]
                simp only []
                rw [skipWs_cons_not_ws ',' _ (by decide)]
                simp only []
                rw [show ('\n' :: (indentChars ind ++ (ppMems (m :: kvs2) ind ++
                      (ws ++ '\x7d' :: rest)))) =
                    ('\n' :: indentChars ind) ++ (ppMems (m :: kvs2) ind ++
                      (ws ++ '\x7d' :: rest)) from rfl,
                  skipWs_ws_append _ _ (nlIndent_all_ws ind),
                  skipWs_nonws_append _ _
                    (by obtain ⟨tail, htail⟩ := ppMems_head m kvs2 ind
                        exact ⟨'"', tail, htail, by decide⟩),
                  ihM (m :: kvs2) ind ws rest (by simp) (by omega) hws]
                rfl
      -- parseItems
      · intro xs ind ws rest hne hs hws
        cases xs with
        | nil => exact absurd rfl hne
        | cons x xs =>
            simp only [sizeItems] at hs
            cases xs with
            | nil =>
                rw [show ppItems [x] ind = ppVal x ind from rfl,
                  show parseItems (f + 1) (ppVal x ind ++ (ws ++ ']' :: rest)) =
                    (match parseVal f (ppVal x ind ++ (ws ++ ']' :: rest)) with
                     | some (v2, rest2) =>
                         (match skipWs rest2 with
                          | ',' :: rest3 =>
                              (match parseItems f (skipWs rest3) with
                               | some (vs, rest4) => some (v2 :: vs, rest4)
                               | none => none)
                          | ']' :: rest3 => some ([v2], rest3)
                          | _ => none)
                     | none => none) from rfl,
                  ihV x ind (ws ++ ']' :: rest) (by omega)
                    (noDigitHead_ws_append ws _ hws rfl)]
                simp only []
                rw [skipWs_ws_append ws _ hws, skipWs_cons_not_ws ']' _ (by decide)]
                rfl
            | cons y ys =>
                have hpp : ppItems (x :: y :: ys) ind ++ (ws ++ ']' :: rest) =
                    ppVal x ind ++ (',' :: ('\n' :: (indentChars ind ++
                      (ppItems (y :: ys) ind ++ (ws ++ ']' :: rest))))) := by
                  rw [ppItems]
                  simp [List.cons_append, List.append_assoc]
                rw [hpp,
                  show parseItems (f + 1) (ppVal x ind ++ (',' :: ('\n' ::
                      (indentChars ind ++ (ppItems (y :: ys) ind ++
                        (ws ++ ']' :: rest)))))) =
                    (match parseVal f (ppVal x ind ++ (',' :: ('\n' ::
                        (indentChars ind ++ (ppItems (y :: ys) ind ++
                          (ws ++ ']' :: rest)))))) with
                     | some (v2, rest2) =>
                         (match skipWs rest2 with
                          | ',' :: rest3 =>
                              (match parseItems f (skipWs rest3) with
                               | some (vs, rest4) => some (v2 :: vs, rest4)
                               | none => none)
                          | ']' :: rest3 => some ([v2], rest3)
                          | _ => none)
                     | none => none) from rfl,
                  ihV x ind (',' :: ('\n' :: (indentChars ind ++
                    (ppItems (y :: ys) ind ++ (ws ++ ']' :: rest)))))
                    (by omega) rfl]
                simp only []
                rw [skipWs_cons_not_ws ',' _ (by decide)]
                simp only []
                rw [show ('\n' :: (indentChars ind ++ (ppItems (y :: ys) ind ++
                      (ws ++ ']' :: rest)))) =
                    ('\n' :: indentChars ind) ++ (ppItems (y :: ys) ind ++
                      (ws ++ ']' :: rest)) from rfl,
                  skipWs_ws_append _ _ (nlIndent_all_ws ind),
                  skipWs_nonws_append _ _
                    (by obtain ⟨c, cs, hc, hnws, _⟩ := ppItems_head y ys ind
                        exact ⟨c, cs, hc, hnws⟩),
                  ihI (y :: ys) ind ws rest (by simp) (by omega) hws]

theorem ppInt_length_pos (n : Int) : 1 ≤ (ppInt n).length := by
  rw [ppInt]
  by_cases hn : n < 0
  · rw [if_pos hn]; simp
  · rw [if_neg hn]
    exact List.length_pos.mpr (natDigitsAux_ne_nil n.natAbs n.natAbs)

mutual

theorem sizeV_le_len : ∀ (v : JValue) (ind : Nat),
    sizeV v ≤ 4 * (ppVal v ind).length
  | JValue.null, ind => by simp [sizeV, ppVal]
  | JValue.bool true, ind => by simp [sizeV, ppVal]
  | JValue.bool false, ind => by simp [sizeV, ppVal]
  | JValue.num n, ind => by
      have := ppInt_length_pos n
      rw [show ppVal (JValue.num n) ind = ppInt n from rfl]
      rw [show sizeV (JValue.num n) = 2 from rfl]
      omega
  | JValue.str s, ind => by
      rw [show ppVal (JValue.str s) ind = ppStr s from rfl,
        show sizeV (JValue.str s) = 2 from rfl, ppStr]
      simp only [List.length_cons, List.length_append]
      omega
  | JValue.list [], ind => by simp [sizeV, sizeItems, ppVal]
  | JValue.list (x :: xs), ind => by
      have h := sizeItems_le_len (x :: xs) (ind + 1)
      rw [show sizeV (JValue.list (x :: xs)) = 3 + sizeItems (x :: xs) from rfl, ppVal]
      simp only [List.length_cons, List.length_append]
      omega
  | JValue.dict [], ind => by simp [sizeV, sizeMems, ppVal]
  | JValue.dict (kv :: kvs), ind => by
      have h := sizeMems_le_len (kv :: kvs) (ind + 1)
      rw [show sizeV (JValue.dict (kv :: kvs)) = 3 + sizeMems (kv :: kvs) from rfl, ppVal]
      simp only [List.length_cons, List.length_append]
      omega

theorem sizeItems_le_len : ∀ (xs : List JValue) (ind : Nat),
    sizeItems xs ≤ 4 * (ppItems xs ind).length + 1
  | [], ind => by simp [sizeItems]
  | [x], ind => by
      have h := sizeV_le_len x ind
      rw [show sizeItems [x] = 1 + sizeV x + 0 from rfl,
        show ppItems [x] ind = ppVal x ind from rfl]
      omega
  | x :: y :: rest, ind => by
      have h1 := sizeV_le_len x ind
      have h2 := sizeItems_le_len (y :: rest) ind
      rw [show sizeItems (x :: y :: rest) =
          1 + sizeV x + sizeItems (y :: rest) from rfl, ppItems]
      simp only [List.length_append, List.length_cons]
      omega

theorem sizeMems_le_len : ∀ (kvs : List (String × JValue)) (ind : Nat),
    sizeMems kvs ≤ 4 * (ppMems kvs ind).length + 1
  | [], ind => by simp [sizeMems]
  | [(k, v)], ind => by
      have h := sizeV_le_len v ind
      rw [show sizeMems [(k, v)] = 1 + sizeV v + 0 from rfl,
        show ppMems [(k, v)] ind = ppStr k ++ ':' :: ' ' :: ppVal v ind from rfl]
      simp only [List.length_append, List.length_cons]
      omega
  | (k, v) :: m :: rest, ind => by
      have h1 := sizeV_le_len v ind
      have h2 := sizeMems_le_len (m :: rest) ind
      rw [show sizeMems ((k, v) :: m :: rest) =
          1 + sizeV v + sizeMems (m :: rest) from rfl, ppMems]
      simp only [List.length_append, List.length_cons]
      omega

end

/-- Parsing the document `json.dump` writes recovers the serialized
value exactly. -/
theorem parseJson_dumps (v : JValue) : parseJson (dumps v) = some v := by
  rw [show parseJson (dumps v) =
      (match parseVal (4 * (ppVal v 0).length + 8) (ppVal v 0) with
       | some (v2, rest) => if (skipWs rest).isEmpty then some v2 else none
       | none => none) from rfl]
  have hb : sizeV v ≤ 4 * (ppVal v 0).length + 8 := by
    have := sizeV_le_len v 0
    omega
  have h := (parse_pp_all (4 * (ppVal v 0).length + 8)).1 v 0 [] hb rfl
  rw [List.append_nil] at h
  rw [h]
  rfl

/-- C7: `save_to_json` writes a JSON document that parses back to a value
equal to the in-memory Metadata Collection — every key and field value
preserved, non-ASCII text written literally — and a write failure is
reported as the boolean `false` rather than raised. -/
theorem C7_persist_roundtrip :
    (∀ v : JValue, parseJson (dumps v) = some v) ∧
    (∀ (data : JValue) (fn : String),
        save_to_json WriteOutcome.ioError data fn = (false, none)) ∧
    (∀ (data : JValue) (fn : String),
        save_to_json WriteOutcome.ok data fn = (true, some (fn, dumps data))) ∧
    dumps (JValue.str "màu xanh lá") = "\"màu xanh lá\"" ∧
    parseJson "\"màu xanh lá\"" = some (JValue.str "màu xanh lá") :=
  ⟨parseJson_dumps, fun _ _ => rfl, fun _ _ => rfl, rfl, rfl⟩

end ResearchCamera360
